import Mathlib

/-!
# Verification of the web-sequencer DSL core

A shallow embedding of the music-sequencer core (pitch/duration primitives,
the AST → event compiler, the swing transform, and the lookahead scheduler)
together with theorems settling the specification claims.

Conventions of the embedding:
* Times, durations, velocities and gains are `ℚ` (the source uses IEEE
  doubles; all the algorithms here are exact arithmetic on values produced
  by rational duration accumulation, so `ℚ` is the faithful exact model).
* Fallible source functions (which `throw`) become `Except CompileErr`.
* Pattern expansion in the source recurses without any bound; the embedding
  makes the recursion well-founded with an explicit `fuel` depth budget that
  is consumed only when a `use` node expands a pattern body.  `.error
  .fuelExhausted` for every budget therefore witnesses divergence of the
  source recursion.
* The frequency `440·2^((midi−69)/12)` Hz is irrational; since it is a fixed
  injective function of the MIDI number and no claim inspects its numeric
  value (only whether it is set), the `freq` field symbolically stores the
  MIDI number it is derived from.
-/

/-- Note letters A–G (source: `VALID_NOTES` in pitch.ts). -/
inductive NoteLetter where
  | C | D | E | F | G | A | B
deriving DecidableEq, Repr

/-- Accidental: `'#'`, `'b'` or none (source: `Pitch.accidental`). -/
inductive Accidental where
  | natural | sharp | flat
deriving DecidableEq, Repr

/-- A parsed pitch (source: `Pitch` in pitch.ts).  The tokenizer guarantees
the `[A-Ga-g][#b]?\d+` shape, so the embedding stores the structured fields;
the octave range check of `parsePitch` is kept (see `parsePitch`). -/
structure Pitch where
  noteName : NoteLetter
  accidental : Accidental
  octave : ℕ
deriving DecidableEq, Repr

/-- Semitone offsets from C (source: `NOTE_SEMITONES`). -/
def noteSemitones : NoteLetter → ℤ
  | .C => 0
  | .D => 2
  | .E => 4
  | .F => 5
  | .G => 7
  | .A => 9
  | .B => 11

/-- `pitchToMidi` (pitch.ts): `12 * (octave + 1) + baseSemitone + accidentalOffset`. -/
def pitchToMidi (p : Pitch) : ℤ :=
  let accidentalOffset : ℤ :=
    match p.accidental with
    | .sharp => 1
    | .flat => -1
    | .natural => 0
  12 * ((p.octave : ℤ) + 1) + noteSemitones p.noteName + accidentalOffset

/-- `midiToFrequency` (pitch.ts) returns `440 * 2^((midi - 69)/12)` Hz, an
irrational real.  The embedding represents that frequency symbolically by the
MIDI number that determines it (the map is injective and no claim uses the
numeric value, only whether the field is null). -/
def midiToFrequency (midi : ℤ) : ℤ := midi

/-- A duration fraction (source: `Duration` in duration.ts). -/
structure Duration where
  numerator : ℕ
  denominator : ℕ
deriving DecidableEq, Repr

/-- Compilation errors; each constructor stands for one `throw` site's
message class in the source. -/
inductive CompileErr where
  /-- Stand-in for the unbounded recursion of `compilePatternUse`: the
  expansion-depth budget of the embedding is exhausted. -/
  | fuelExhausted
  /-- "Pattern '…' is not defined." (compiler.ts) -/
  | undefinedPattern (name : String)
  /-- "Track '…' references undefined instrument '…'." (compiler.ts) -/
  | undefinedInstrument (track instName : String)
  /-- "Invalid duration: numerator/denominator must be positive" (duration.ts) -/
  | invalidDuration
  /-- "Invalid BPM: must be positive" (duration.ts) -/
  | invalidBPM
  /-- "Invalid pitch: octave out of range (0-9)" (pitch.ts) -/
  | invalidPitch
deriving DecidableEq, Repr

/-- `parsePitch` (pitch.ts), structural part: the octave range check
`MIN_OCTAVE = 0 ≤ octave ≤ MAX_OCTAVE = 9` (the lower bound is automatic
for `ℕ`). -/
def parsePitch (p : Pitch) : Except CompileErr Pitch :=
  if p.octave ≤ 9 then .ok p else .error .invalidPitch

/-- `parseDuration` (duration.ts), structural part: numerator and
denominator must be positive. -/
def parseDuration (d : Duration) : Except CompileErr Duration :=
  if d.numerator = 0 then .error .invalidDuration
  else if d.denominator = 0 then .error .invalidDuration
  else .ok d

/-- `durationToSeconds` (duration.ts):
`beats = (numerator / denominator) * 4`, `seconds = beats * (60 / bpm)`;
throws on `bpm ≤ 0`. -/
def durationToSeconds (d : Duration) (bpm : ℚ) : Except CompileErr ℚ :=
  if bpm ≤ 0 then .error .invalidBPM
  else .ok (((d.numerator : ℚ) / (d.denominator : ℚ)) * 4 * (60 / bpm))

/-- `parseDurationToSeconds` (duration.ts). -/
def parseDurationToSeconds (d : Duration) (bpm : ℚ) : Except CompileErr ℚ := do
  let d' ← parseDuration d
  durationToSeconds d' bpm

/-- ADSR parameters of an instrument directive (source: `ADSRParams`). -/
structure ADSRParams where
  attack : Option ℚ
  decay : Option ℚ
  sustain : Option ℚ
  release : Option ℚ
deriving DecidableEq, Repr

/-- ADSR settings carried on an event (source: `SynthEventADSR`). -/
structure SynthEventADSR where
  attack : ℚ
  decay : ℚ
  sustain : ℚ
  release : ℚ
deriving DecidableEq, Repr

/-- An instrument directive (source: `InstDirective`; positions dropped). -/
structure InstDirective where
  name : String
  waveform : String
  gain : Option ℚ
  adsr : Option ADSRParams
deriving DecidableEq, Repr

/-- Event kind discriminant. -/
inductive EventKind where
  | note | rest
deriving DecidableEq, Repr

/-- A compiled audio event (source: `SynthEvent` in compiler.ts).
`freq` symbolically stores the MIDI number, see `midiToFrequency`. -/
structure SynthEvent where
  t : ℚ
  dur : ℚ
  kind : EventKind
  midi : Option ℤ
  freq : Option ℤ
  vel : ℚ
  inst : String
  waveform : String
  track : Option String
  gain : Option ℚ
  adsr : Option SynthEventADSR
deriving DecidableEq, Repr

/-- Sequence items (source: `SequenceItem` union in parser.ts; positions
dropped, pitch/duration strings replaced by their structured parses). -/
inductive SequenceItem where
  | note (pitch : Pitch) (duration : Duration) (velocity : Option ℚ)
  | rest (duration : Duration)
  | chord (pitches : List Pitch) (duration : Duration) (velocity : Option ℚ)
  | repeatBlock (count : ℕ) (items : List SequenceItem)
  | patternUse (name : String) (repetitions : ℕ)
deriving Repr

/-- A pattern definition (source: `PatternDefinition`). -/
structure PatternDefinition where
  name : String
  items : List SequenceItem
deriving Repr

/-- A track definition (source: `TrackDefinition`). -/
structure TrackDefinition where
  name : String
  instrumentName : String
  items : List SequenceItem
deriving Repr

/-- Global settings (source: `GlobalSettings`; defaults swing 0, loop 1,
grid 16 are applied by the parser). -/
structure GlobalSettings where
  swing : ℚ
  loop : ℤ
  grid : ℤ
deriving DecidableEq, Repr

/-- The parsed program (source: `Program` in parser.ts).  `instrument` is
the default instrument the parser selected (first directive, or the
synthesized `lead`/`sine`). -/
structure Program where
  bpm : ℤ
  instrument : InstDirective
  instruments : List InstDirective
  patterns : List PatternDefinition
  tracks : List TrackDefinition
  sequence : Option (List SequenceItem)
  globalSettings : GlobalSettings
deriving Repr

/-- The parser's default-instrument selection (parser.ts, `parse`):
`instruments.length > 0 ? instruments[0] : {name: 'lead', waveform: 'sine'}`. -/
def defaultInstrumentOf (instruments : List InstDirective) : InstDirective :=
  match instruments with
  | [] => { name := "lead", waveform := "sine", gain := none, adsr := none }
  | i :: _ => i

/-! ## String-keyed maps

JavaScript `Map.set` updates an existing key in place (keeping its
position) or appends a new entry; `Map.get` finds the entry by key. -/

/-- `Map.set` semantics. -/
def mapSet {α : Type} (k : String) (v : α) : List (String × α) → List (String × α)
  | [] => [(k, v)]
  | (k', v') :: rest => if k' = k then (k, v) :: rest else (k', v') :: mapSet k v rest

/-- `Map.get` semantics: find the entry with the given key. -/
def mapGet {α : Type} (k : String) : List (String × α) → Option α
  | [] => none
  | (k', v) :: rest => if k' = k then some v else mapGet k rest

/-- Build a name-indexed map from a list (compiler.ts: the
`context.patterns.set(pattern.name, pattern)` / `context.instruments.set`
loops over `ast.patterns` / `ast.instruments`). -/
def buildIndex {α : Type} (key : α → String) (l : List α) : List (String × α) :=
  l.foldl (fun m x => mapSet (key x) x m) []

/-! ## Stable sort by start time

`events.sort((a, b) => a.t - b.t)` — ECMAScript `Array.prototype.sort` is
stable and orders by the sign of the comparator, i.e. ascending by `t` with
ties kept in their original (emission) order.  Insertion sort that inserts
behind equal keys implements exactly that. -/

/-- Insert an event behind all events with `t ≤` its own `t`. -/
def insertByT (e : SynthEvent) : List SynthEvent → List SynthEvent
  | [] => [e]
  | x :: xs => if x.t ≤ e.t then x :: insertByT e xs else e :: x :: xs

/-- Stable ascending sort by `t` (model of `events.sort((a, b) => a.t - b.t)`). -/
def sortByT (events : List SynthEvent) : List SynthEvent :=
  events.foldl (fun acc e => insertByT e acc) []

/-! ## The compiler -/

/-- `DEFAULT_VELOCITY = 0.8` (compiler.ts). -/
def DEFAULT_VELOCITY : ℚ := 8/10

/-- `DEFAULT_ADSR` (compiler.ts). -/
def DEFAULT_ADSR : SynthEventADSR :=
  { attack := 5/1000, decay := 5/100, sustain := 7/10, release := 8/100 }

/-- Compiler context (source: `CompilerContext`). -/
structure CompilerContext where
  bpm : ℚ
  patterns : List (String × PatternDefinition)
  instruments : List (String × InstDirective)
  defaultInstrument : InstDirective

/-- `buildADSR` (compiler.ts): fill omitted ADSR sub-fields with defaults. -/
def buildADSR (instrument : InstDirective) : SynthEventADSR :=
  let adsr := instrument.adsr.getD ⟨none, none, none, none⟩
  { attack := adsr.attack.getD DEFAULT_ADSR.attack
    decay := adsr.decay.getD DEFAULT_ADSR.decay
    sustain := adsr.sustain.getD DEFAULT_ADSR.sustain
    release := adsr.release.getD DEFAULT_ADSR.release }

/-- The `if (trackName) event.track = trackName` guard: JavaScript
truthiness also rejects the empty string. -/
def attachTrack (trackName : Option String) : Option String :=
  match trackName with
  | none => none
  | some n => if n = "" then none else some n

/-- `compileNote` (compiler.ts). -/
def compileNote (pitch : Pitch) (duration : Duration) (velocity : Option ℚ)
    (currentTime : ℚ) (instrument : InstDirective) (trackName : Option String)
    (ctx : CompilerContext) : Except CompileErr (List SynthEvent × ℚ) := do
  let dur ← parseDurationToSeconds duration ctx.bpm
  let p ← parsePitch pitch
  let midi := pitchToMidi p
  let freq := midiToFrequency midi
  let event : SynthEvent :=
    { t := currentTime, dur := dur, kind := .note, midi := some midi
      freq := some freq, vel := velocity.getD DEFAULT_VELOCITY
      inst := instrument.name, waveform := instrument.waveform
      track := attachTrack trackName, gain := instrument.gain
      adsr := instrument.adsr.map (fun _ => buildADSR instrument) }
  .ok ([event], currentTime + dur)

/-- `compileRest` (compiler.ts): no gain and no ADSR are attached to rests. -/
def compileRest (duration : Duration) (currentTime : ℚ)
    (instrument : InstDirective) (trackName : Option String)
    (ctx : CompilerContext) : Except CompileErr (List SynthEvent × ℚ) := do
  let dur ← parseDurationToSeconds duration ctx.bpm
  let event : SynthEvent :=
    { t := currentTime, dur := dur, kind := .rest, midi := none
      freq := none, vel := 0
      inst := instrument.name, waveform := instrument.waveform
      track := attachTrack trackName, gain := none, adsr := none }
  .ok ([event], currentTime + dur)

/-- The `for (const pitchStr of chord.pitches)` loop of `compileChord`. -/
def chordEvents (pitches : List Pitch) (currentTime dur velocity : ℚ)
    (instrument : InstDirective) (trackName : Option String) :
    Except CompileErr (List SynthEvent) :=
  match pitches with
  | [] => .ok []
  | pitch :: rest => do
    let p ← parsePitch pitch
    let midi := pitchToMidi p
    let event : SynthEvent :=
      { t := currentTime, dur := dur, kind := .note, midi := some midi
        freq := some (midiToFrequency midi), vel := velocity
        inst := instrument.name, waveform := instrument.waveform
        track := attachTrack trackName, gain := instrument.gain
        adsr := instrument.adsr.map (fun _ => buildADSR instrument) }
    let events ← chordEvents rest currentTime dur velocity instrument trackName
    .ok (event :: events)

/-- `compileChord` (compiler.ts): duration and velocity are computed once,
one note event per pitch in declared order, the cursor advances by `dur`
once. -/
def compileChord (pitches : List Pitch) (duration : Duration)
    (velocity : Option ℚ) (currentTime : ℚ) (instrument : InstDirective)
    (trackName : Option String) (ctx : CompilerContext) :
    Except CompileErr (List SynthEvent × ℚ) := do
  let dur ← parseDurationToSeconds duration ctx.bpm
  let events ← chordEvents pitches currentTime dur
    (velocity.getD DEFAULT_VELOCITY) instrument trackName
  .ok (events, currentTime + dur)

mutual

/-- `compileSequenceItems` (compiler.ts): walk the items in order, threading
the cursor, collecting events in emission order. -/
def compileSequenceItems (fuel : ℕ) (items : List SequenceItem)
    (currentTime : ℚ) (instrument : InstDirective) (trackName : Option String)
    (ctx : CompilerContext) : Except CompileErr (List SynthEvent × ℚ) :=
  match items with
  | [] => .ok ([], currentTime)
  | item :: rest => do
    let (es₁, t₁) ← compileSequenceItem fuel item currentTime instrument trackName ctx
    let (es₂, t₂) ← compileSequenceItems fuel rest t₁ instrument trackName ctx
    .ok (es₁ ++ es₂, t₂)
termination_by (fuel, sizeOf items, 0)

/-- `compileSequenceItem` (compiler.ts): dispatch on the item tag.
A `use` looks up the pattern (error, naming it, when undefined) and then
expands its body `repetitions` times; the source recursion there is
unbounded, so expansion consumes one unit of the depth budget. -/
def compileSequenceItem (fuel : ℕ) (item : SequenceItem) (currentTime : ℚ)
    (instrument : InstDirective) (trackName : Option String)
    (ctx : CompilerContext) : Except CompileErr (List SynthEvent × ℚ) :=
  match item with
  | .note pitch duration velocity =>
    compileNote pitch duration velocity currentTime instrument trackName ctx
  | .rest duration =>
    compileRest duration currentTime instrument trackName ctx
  | .chord pitches duration velocity =>
    compileChord pitches duration velocity currentTime instrument trackName ctx
  | .repeatBlock count items =>
    compileExpandLoop fuel count items currentTime instrument trackName ctx
  | .patternUse name repetitions =>
    match mapGet name ctx.patterns with
    | none => .error (.undefinedPattern name)
    | some pat =>
      match fuel with
      | 0 => .error .fuelExhausted
      | f + 1 =>
        compileExpandLoop f repetitions pat.items currentTime instrument trackName ctx
termination_by (fuel, sizeOf item, 0)

/-- The `for (let i = 0; i < count; i++) time = compileSequenceItems(...)`
loops of `compileRepeatBlock` and `compilePatternUse`. -/
def compileExpandLoop (fuel count : ℕ) (items : List SequenceItem)
    (currentTime : ℚ) (instrument : InstDirective) (trackName : Option String)
    (ctx : CompilerContext) : Except CompileErr (List SynthEvent × ℚ) :=
  match count with
  | 0 => .ok ([], currentTime)
  | c + 1 => do
    let (es₁, t₁) ← compileSequenceItems fuel items currentTime instrument trackName ctx
    let (es₂, t₂) ← compileExpandLoop fuel c items t₁ instrument trackName ctx
    .ok (es₁ ++ es₂, t₂)
termination_by (fuel, sizeOf items, count + 1)

end

/-- The `for (const track of ast.tracks)` loop of `compile` (compiler.ts):
look up each track's instrument (error enumerating the defined ones when
missing) and walk its items from time 0. -/
def compileTracksLoop (fuel : ℕ) (tracks : List TrackDefinition)
    (ctx : CompilerContext) : Except CompileErr (List SynthEvent) :=
  match tracks with
  | [] => .ok []
  | track :: rest =>
    match mapGet track.instrumentName ctx.instruments with
    | none => .error (.undefinedInstrument track.name track.instrumentName)
    | some inst => do
      let (es, _) ← compileSequenceItems fuel track.items 0 inst (some track.name) ctx
      let rest' ← compileTracksLoop fuel rest ctx
      .ok (es ++ rest')

/-- The `CompilerContext` that `compile` builds: patterns and instruments
indexed by name with `Map.set` (so duplicates resolve last-wins), the
default instrument from the parser. -/
def contextOf (ast : Program) : CompilerContext :=
  { bpm := (ast.bpm : ℚ)
    patterns := buildIndex (·.name) ast.patterns
    instruments := buildIndex (·.name) ast.instruments
    defaultInstrument := ast.instrument }

/-- `compile` (compiler.ts): build the context, walk the main sequence with
the default instrument, walk each track from time 0 with its instrument,
then sort all events by start time (`events.sort((a, b) => a.t - b.t)`). -/
def compile (fuel : ℕ) (ast : Program) : Except CompileErr (List SynthEvent) := do
  let context : CompilerContext := contextOf ast
  let seqEvents ←
    match ast.sequence with
    | some seqItems => do
      let (es, _) ← compileSequenceItems fuel seqItems 0 ast.instrument none context
      .ok es
    | none => .ok ([] : List SynthEvent)
  let trackEvents ← compileTracksLoop fuel ast.tracks context
  .ok (sortByT (seqEvents ++ trackEvents))

/-! ## Swing transform (swing.ts) -/

/-- The body of the `events.map` in `applySwing`: decide whether the event
sits (within `0.001·s`) on an odd grid subdivision and delay it when so.
`Math.round` rounds half-up (`⌊x + 1/2⌋`, Mathlib's `round`); the JS
remainder `%` truncates toward zero (`Int.tmod`), so
`subdivisionIndex % 2 === 1` is `Int.tmod i 2 = 1`. -/
def swingMapEvent (swing subdivisionDuration : ℚ) (event : SynthEvent) : SynthEvent :=
  let epsilon := subdivisionDuration * (1/1000)
  let subdivisionIndex : ℤ := round (event.t / subdivisionDuration)
  let gridAlignedTime := (subdivisionIndex : ℚ) * subdivisionDuration
  let isOnGrid := |event.t - gridAlignedTime| < epsilon
  let isOffBeat := Int.tmod subdivisionIndex 2 = 1
  if isOnGrid ∧ isOffBeat then
    { event with t := max 0 (event.t + swing * subdivisionDuration) }
  else
    event

/-- `applySwing` (swing.ts): identity at swing 0; otherwise delay every
grid-aligned odd-subdivision event by `swing · (60/bpm) · (4/grid)` and
re-sort by `t`. -/
def applySwing (events : List SynthEvent) (swing grid bpm : ℚ) : List SynthEvent :=
  if swing = 0 then events
  else
    let quarterNoteDuration := 60 / bpm
    let subdivisionDuration := quarterNoteDuration * (4 / grid)
    sortByT (events.map (swingMapEvent swing subdivisionDuration))

/-- `calculateTotalDuration` (compiler.ts): max over events of `t + dur`,
0 when empty. -/
def calculateTotalDuration (events : List SynthEvent) : ℚ :=
  events.foldl (fun maxEndTime e =>
    if e.t + e.dur > maxEndTime then e.t + e.dur else maxEndTime) 0

/-- `CompilationResult` (compiler.ts). -/
structure CompilationResult where
  bpm : ℤ
  totalDuration : ℚ
  eventCount : ℕ
  events : List SynthEvent
  globalSettings : GlobalSettings
deriving Repr

/-- `compileFromSource` (compiler.ts) after parsing: compile the AST and
apply the swing transform when `globalSettings.swing > 0`. -/
def compileFromAst (fuel : ℕ) (ast : Program) : Except CompileErr CompilationResult := do
  let events ← compile fuel ast
  let events :=
    if ast.globalSettings.swing > 0 then
      applySwing events ast.globalSettings.swing (ast.globalSettings.grid : ℚ) (ast.bpm : ℚ)
    else events
  .ok { bpm := ast.bpm
        totalDuration := calculateTotalDuration events
        eventCount := events.length
        events := events
        globalSettings := ast.globalSettings }

/-! ## Scheduler (audio/scheduler.ts) -/

/-- `SCHEDULE_AHEAD_SEC = 0.2`. -/
def SCHEDULE_AHEAD_SEC : ℚ := 2/10

/-- `shouldPlayEvent` (scheduler.ts): solo takes precedence; the default
track name for events without a track is `"default"`. -/
def shouldPlayEvent (mutedTracks soloedTracks : List String) (event : SynthEvent) : Bool :=
  let trackName := event.track.getD "default"
  if soloedTracks.length > 0 then
    soloedTracks.contains trackName
  else
    !(mutedTracks.contains trackName)

/-- Truncation toward zero on `ℚ` (the `q` in the IEEE remainder
`a % b = a - b * trunc (a / b)`). -/
def ratTrunc (q : ℚ) : ℤ := if 0 ≤ q then ⌊q⌋ else ⌈q⌉

/-- The JavaScript `%` on numbers: remainder with the dividend's sign. -/
def jsMod (a b : ℚ) : ℚ := a - b * (ratTrunc (a / b) : ℚ)

/-- A call of `scheduleNote` performed by the scheduler, recorded with the
event index, the audio-clock time it was scheduled for, the loop iteration
it belongs to (the iteration whose window contains `when`), and whether it
was issued by the guarded main pass (`true`) or by the unguarded next-loop
lookahead pass (`false`). -/
structure Dispatch where
  idx : ℕ
  whenTime : ℚ
  iter : ℤ
  mainPass : Bool
deriving DecidableEq, Repr

/-- Immutable per-run scheduler configuration: the sorted event list,
`startTime`, `loopDurationSec` and the mute/solo sets (fixed over the run). -/
structure SchedConfig where
  events : List SynthEvent
  startTime : ℚ
  loopDurationSec : ℚ
  mutedTracks : List String
  soloedTracks : List String

/-- The mutable scheduler state touched by `scheduleWithLooping`. -/
structure SchedState where
  nextNoteIndex : ℕ
  currentLoopIteration : ℤ
  scheduledInCurrentLoop : List ℕ
deriving Repr

/-- The `while (nextNoteIndex < scheduledEvents.length)` loop of
`scheduleWithLooping`: skip events past the loop boundary, stop at the
lookahead horizon (`eventTime = loopStartTime + event.t`), skip past
events, skip indices already in `scheduledInCurrentLoop`, dispatch the
rest through the mute/solo filter and record their indices.  Returns the
dispatches of this pass, the grown `scheduledInCurrentLoop` and the final
`nextNoteIndex`. -/
def loopMainPass (cfg : SchedConfig) (now loopStartTime : ℚ) (iter : ℤ) :
    List SynthEvent → ℕ → List ℕ → List Dispatch × List ℕ × ℕ
  | [], idx, scheduled => ([], scheduled, idx)
  | event :: rest, idx, scheduled =>
    if event.t ≥ cfg.loopDurationSec then
      loopMainPass cfg now loopStartTime iter rest (idx + 1) scheduled
    else if loopStartTime + event.t ≥ now + SCHEDULE_AHEAD_SEC then
      ([], scheduled, idx)
    else if loopStartTime + event.t < now then
      loopMainPass cfg now loopStartTime iter rest (idx + 1) scheduled
    else if idx ∈ scheduled then
      loopMainPass cfg now loopStartTime iter rest (idx + 1) scheduled
    else if shouldPlayEvent cfg.mutedTracks cfg.soloedTracks event then
      -- scheduleEventIfInWindow: dispatch and record iff the window test holds
      if loopStartTime + event.t ≥ now ∧
          loopStartTime + event.t < now + SCHEDULE_AHEAD_SEC then
        let r := loopMainPass cfg now loopStartTime iter rest (idx + 1) (idx :: scheduled)
        (⟨idx, loopStartTime + event.t, iter, true⟩ :: r.1, r.2)
      else
        loopMainPass cfg now loopStartTime iter rest (idx + 1) scheduled
    else
      loopMainPass cfg now loopStartTime iter rest (idx + 1) scheduled

/-- The `for (let i = 0; i < scheduledEvents.length; i++)` next-loop
lookahead pass of `scheduleWithLooping`: events of the upcoming iteration
that already fall in the lookahead window are dispatched but *not* recorded
in `scheduledInCurrentLoop`. -/
def loopSecondPass (cfg : SchedConfig) (now nextLoopStartTime : ℚ) (iter : ℤ) :
    List SynthEvent → ℕ → List Dispatch
  | [], _ => []
  | event :: rest, idx =>
    if event.t ≥ cfg.loopDurationSec then
      loopSecondPass cfg now nextLoopStartTime iter rest (idx + 1)
    else if nextLoopStartTime + event.t ≥ now ∧
        nextLoopStartTime + event.t < now + SCHEDULE_AHEAD_SEC then
      if shouldPlayEvent cfg.mutedTracks cfg.soloedTracks event then
        ⟨idx, nextLoopStartTime + event.t, iter, false⟩ ::
          loopSecondPass cfg now nextLoopStartTime iter rest (idx + 1)
      else
        loopSecondPass cfg now nextLoopStartTime iter rest (idx + 1)
    else
      loopSecondPass cfg now nextLoopStartTime iter rest (idx + 1)

/-- `scheduleWithLooping` (scheduler.ts), one tick at audio-clock time
`now`: advance the loop iteration when a boundary was crossed (resetting
`nextNoteIndex` and clearing `scheduledInCurrentLoop`), run the guarded
main pass, and near the loop boundary run the unguarded next-loop pass. -/
def scheduleWithLooping (cfg : SchedConfig) (st : SchedState) (now : ℚ) :
    SchedState × List Dispatch :=
  let elapsed := now - cfg.startTime
  let newLoopIteration : ℤ := ⌊elapsed / cfg.loopDurationSec⌋
  let advance := newLoopIteration > st.currentLoopIteration
  let iter := if advance then newLoopIteration else st.currentLoopIteration
  let nextIdx := if advance then 0 else st.nextNoteIndex
  let scheduled := if advance then [] else st.scheduledInCurrentLoop
  let loopStartTime := cfg.startTime + (iter : ℚ) * cfg.loopDurationSec
  let mp := loopMainPass cfg now loopStartTime iter (cfg.events.drop nextIdx) nextIdx scheduled
  let ds₂ :=
    if jsMod elapsed cfg.loopDurationSec + SCHEDULE_AHEAD_SEC ≥ cfg.loopDurationSec then
      loopSecondPass cfg now (loopStartTime + cfg.loopDurationSec) (iter + 1) cfg.events 0
    else []
  (⟨mp.2.2, iter, mp.2.1⟩, mp.1 ++ ds₂)

/-- Run the looping scheduler over a sequence of tick times, concatenating
the dispatches of every tick. -/
def runLooping (cfg : SchedConfig) (st : SchedState) :
    List ℚ → SchedState × List Dispatch
  | [] => (st, [])
  | now :: rest =>
    let step := scheduleWithLooping cfg st now
    let tail := runLooping cfg step.1 rest
    (tail.1, step.2 ++ tail.2)

/-- The at-most-once bookkeeping invariant of a looping-scheduler run:
every recorded main-pass dispatch belongs to a loop iteration no later than
the current one; those of the current iteration have their index recorded
in `scheduledInCurrentLoop`; and no (index, iteration) pair was main-pass
dispatched twice. -/
def runInv (st : SchedState) (ds : List Dispatch) : Prop :=
  (∀ d ∈ ds, d.mainPass = true → d.iter ≤ st.currentLoopIteration ∧
    (d.iter = st.currentLoopIteration → d.idx ∈ st.scheduledInCurrentLoop)) ∧
  ((ds.filter (·.mainPass)).map (fun d => (d.idx, d.iter))).Nodup

/-- The initial transport state installed by `play()`. -/
def initialSchedState : SchedState :=
  { nextNoteIndex := 0, currentLoopIteration := 0, scheduledInCurrentLoop := [] }

/-! ## Transport `stop()` (scheduler.ts) -/

/-- Externally observable side effects of `stop()`. -/
inductive StopEffect where
  /-- `clearInterval(timerID)` -/
  | clearTimer
  /-- `engineStopPlayback()` — the backend cancel-all -/
  | stopPlayback
  /-- `notifyTransportStateChange()` -/
  | notifyStateChange
deriving DecidableEq, Repr

/-- The full transport state owned by the scheduler module. -/
structure TransportData where
  playing : Bool
  timerID : Option ℕ
  nextNoteIndex : ℕ
  scheduledInCurrentLoop : List ℕ
  currentLoopIteration : ℤ
  mutedTracks : List String
  soloedTracks : List String
deriving DecidableEq, Repr

/-- `stop()` (scheduler.ts): `if (!playing && timerID === null) return;`
otherwise clear the timer (when set), stop backend playback, reset the
loop-tracking state and notify listeners. -/
def stop (st : TransportData) : TransportData × List StopEffect :=
  if !st.playing ∧ st.timerID = none then (st, [])
  else
    ({ st with playing := false, timerID := none, nextNoteIndex := 0
               scheduledInCurrentLoop := [], currentLoopIteration := 0 },
     (match st.timerID with | some _ => [StopEffect.clearTimer] | none => []) ++
       [StopEffect.stopPlayback, StopEffect.notifyStateChange])

/-- The definition appearing last in source order among those with a given
name (the resolution order of a JavaScript `Map` built by repeated `set`). -/
def lastDefined {α : Type} (key : α → String) : List α → String → Option α
  | [], _ => none
  | x :: xs, n =>
    match lastDefined key xs n with
    | some y => some y
    | none => if key x = n then some x else none

/-! ## Spec-side definitions and concrete fixtures used by the claims -/

/-- The swing transform as worded by the (amended) specification claim:
an event whose time `t` lies within `10⁻³·s` of `i·s` for `i = round (t/s)`
odd and non-negative has its time replaced by `max 0 (t + swing·s)`; every
other event is unchanged in all fields. -/
def swingSpecMap (swing s : ℚ) (e : SynthEvent) : SynthEvent :=
  let i : ℤ := round (e.t / s)
  if |e.t - (i : ℚ) * s| < s * (1/1000) ∧ Odd i ∧ 0 ≤ i then
    { e with t := max 0 (e.t + swing * s) }
  else e

/-- The synthesized default instrument `{lead, sine}`. -/
def leadInst : InstDirective := { name := "lead", waveform := "sine", gain := none, adsr := none }

/-- A quarter-note duration `1/4`. -/
def q4 : Duration := ⟨1, 4⟩

def pC4 : Pitch := ⟨.C, .natural, 4⟩
def pD4 : Pitch := ⟨.D, .natural, 4⟩
def pE4 : Pitch := ⟨.E, .natural, 4⟩

/-- A compiler context with bpm 120 and no patterns, instruments or tracks. -/
def simpleCtx : CompilerContext :=
  { bpm := 120, patterns := [], instruments := [], defaultInstrument := leadInst }

/-- `bpm 120 / seq: C4 1/4, D4 1/4`. -/
def ast1 : Program :=
  { bpm := 120, instrument := leadInst, instruments := [leadInst]
    patterns := [], tracks := []
    sequence := some [.note pC4 q4 none, .note pD4 q4 none]
    globalSettings := ⟨0, 1, 16⟩ }

/-- `bpm 120 / seq: [E4 C4] 1/4` — a chord whose pitches are declared in
descending MIDI order. -/
def chordAst : Program :=
  { bpm := 120, instrument := leadInst, instruments := [leadInst]
    patterns := [], tracks := []
    sequence := some [.chord [pE4, pC4] q4 none]
    globalSettings := ⟨0, 1, 16⟩ }

/-- The E4 event `compile` emits first for `chordAst`. -/
def chordEventE4 : SynthEvent :=
  { t := 0, dur := 1/2, kind := .note, midi := some 64, freq := some 64
    vel := 8/10, inst := "lead", waveform := "sine", track := none
    gain := none, adsr := none }

/-- The C4 event `compile` emits second for `chordAst`. -/
def chordEventC4 : SynthEvent :=
  { t := 0, dur := 1/2, kind := .note, midi := some 60, freq := some 60
    vel := 8/10, inst := "lead", waveform := "sine", track := none
    gain := none, adsr := none }

/-- An event sitting exactly on grid subdivision −1 (time `−s` for
subdivision period `s = 1/2`). -/
def swingCexEvent : SynthEvent :=
  { t := -1/2, dur := 1/2, kind := .note, midi := some 60, freq := some 60
    vel := 8/10, inst := "lead", waveform := "sine", track := none
    gain := none, adsr := none }

/-- An event on subdivision 1 of a sixteenth grid at bpm 120 (`s = 1/8`). -/
def swingWitEvent : SynthEvent :=
  { t := 1/8, dur := 1/8, kind := .note, midi := some 60, freq := some 60
    vel := 8/10, inst := "lead", waveform := "sine", track := none
    gain := none, adsr := none }

/-- `pattern a: use b / pattern b: use a / seq: use a` — a cyclic pattern
reference. -/
def cyclicAst : Program :=
  { bpm := 120, instrument := leadInst, instruments := [leadInst]
    patterns := [⟨"a", [.patternUse "b" 1]⟩, ⟨"b", [.patternUse "a" 1]⟩]
    tracks := []
    sequence := some [.patternUse "a" 1]
    globalSettings := ⟨0, 1, 16⟩ }

/-- The compiler context `compile` builds for `cyclicAst`. -/
def cyclicCtx : CompilerContext := contextOf cyclicAst

/-- A note event at the start of the loop, used by the scheduler run. -/
def loopNoteEvent : SynthEvent :=
  { t := 0, dur := 1/2, kind := .note, midi := some 60, freq := some 60
    vel := 8/10, inst := "lead", waveform := "sine", track := none
    gain := none, adsr := none }

/-- Scheduler configuration: one event at `t = 0`, `startTime = 0`,
`loopDurationSec = 2`, no mutes or solos. -/
def loopCfg : SchedConfig :=
  { events := [loopNoteEvent], startTime := 0, loopDurationSec := 2
    mutedTracks := [], soloedTracks := [] }

/-- Base program for the pattern-inlining witness:
`pattern p: C4 1/4` with a duplicate-free context. -/
def inlineBase : Program :=
  { bpm := 120, instrument := leadInst, instruments := [leadInst]
    patterns := [⟨"p", [.note pC4 q4 none]⟩], tracks := []
    sequence := none
    globalSettings := ⟨0, 1, 16⟩ }

/-- A program with two pattern definitions sharing the name `p`
(`C4 1/4` then `D4 1/4`) and a sequence using `p`. -/
def dupAst : Program :=
  { bpm := 120, instrument := leadInst, instruments := [leadInst]
    patterns := [⟨"p", [.note pC4 q4 none]⟩, ⟨"p", [.note pD4 q4 none]⟩]
    tracks := []
    sequence := some [.patternUse "p" 1]
    globalSettings := ⟨0, 1, 16⟩ }

/-- `bpm 120 / grid 16 / swing 0.5 / seq: C4 1/16, D4 1/16` — exercises the
swing branch of the pipeline (the second note sits on odd subdivision 1 and
is delayed by `0.5 · 1/8`). -/
def swingAst : Program :=
  { bpm := 120, instrument := leadInst, instruments := [leadInst]
    patterns := [], tracks := []
    sequence := some [.note pC4 ⟨1, 16⟩ none, .note pD4 ⟨1, 16⟩ none]
    globalSettings := ⟨1/2, 1, 16⟩ }

/-- The pipeline result for `swingAst`: the D4 note is delayed from `1/8`
to `3/16`. -/
def swingWitnessResult : CompilationResult :=
  { bpm := 120, totalDuration := 5/16, eventCount := 2
    events :=
      [ { t := 0, dur := 1/8, kind := .note, midi := some 60, freq := some 60
          vel := 8/10, inst := "lead", waveform := "sine", track := none
          gain := none, adsr := none },
        { t := 3/16, dur := 1/8, kind := .note, midi := some 62, freq := some 62
          vel := 8/10, inst := "lead", waveform := "sine", track := none
          gain := none, adsr := none } ]
    globalSettings := ⟨1/2, 1, 16⟩ }

/-- The single event of the second (last-wins) duplicate pattern `D4 1/4`. -/
def dupWitnessEvent : SynthEvent :=
  { t := 0, dur := 1/2, kind := .note, midi := some 62, freq := some 62
    vel := 8/10, inst := "lead", waveform := "sine", track := none
    gain := none, adsr := none }

/-- The three events `compileChord` emits for `[C4 D4 E4] 1/4` at bpm 120
from cursor 1. -/
def chordWitnessEvents : List SynthEvent :=
  [ { t := 1, dur := 1/2, kind := .note, midi := some 60, freq := some 60
      vel := 8/10, inst := "lead", waveform := "sine", track := none
      gain := none, adsr := none },
    { t := 1, dur := 1/2, kind := .note, midi := some 62, freq := some 62
      vel := 8/10, inst := "lead", waveform := "sine", track := none
      gain := none, adsr := none },
    { t := 1, dur := 1/2, kind := .note, midi := some 64, freq := some 64
      vel := 8/10, inst := "lead", waveform := "sine", track := none
      gain := none, adsr := none } ]

/-- The two events of `seq: C4 1/4, C4 1/4` at bpm 120 (the inlined form of
`use p x2` for `pattern p: C4 1/4`). -/
def c5WitnessEvents : List SynthEvent :=
  [ { t := 0, dur := 1/2, kind := .note, midi := some 60, freq := some 60
      vel := 8/10, inst := "lead", waveform := "sine", track := none
      gain := none, adsr := none },
    { t := 1/2, dur := 1/2, kind := .note, midi := some 60, freq := some 60
      vel := 8/10, inst := "lead", waveform := "sine", track := none
      gain := none, adsr := none } ]

/-- An event on track `"a"`. -/
def trackAEvent : SynthEvent :=
  { t := 0, dur := 1/2, kind := .note, midi := some 60, freq := some 60
    vel := 8/10, inst := "lead", waveform := "sine", track := some "a"
    gain := none, adsr := none }

/-- A transport state that is fully stopped (not playing, no timer). -/
def stoppedTransport : TransportData :=
  { playing := false, timerID := none, nextNoteIndex := 3
    scheduledInCurrentLoop := [1, 2], currentLoopIteration := 4
    mutedTracks := ["a"], soloedTracks := ["b"] }

/-! ## Lemmas about the stable sort -/

theorem insertByT_perm (e : SynthEvent) (l : List SynthEvent) :
    List.Perm (insertByT e l) (e :: l) := by
  induction l with
  | nil => rfl
  | cons x xs ih =>
    rw [insertByT]
    split
    · exact ((ih.cons x).trans (List.Perm.swap e x xs))
    · rfl

theorem sortByT_perm (l : List SynthEvent) : List.Perm (sortByT l) l := by
  suffices h : ∀ acc : List SynthEvent,
      List.Perm (l.foldl (fun acc e => insertByT e acc) acc) (acc ++ l) by
    simpa using h []
  induction l with
  | nil => simp
  | cons x xs ih =>
    intro acc
    refine ((ih (insertByT x acc)).trans ?_)
    refine (List.Perm.append_right xs (insertByT_perm x acc)).trans ?_
    simpa using (@List.perm_middle _ x acc xs).symm

theorem insertByT_sorted (e : SynthEvent) (l : List SynthEvent)
    (h : l.Pairwise (fun a b => a.t ≤ b.t)) :
    (insertByT e l).Pairwise (fun a b => a.t ≤ b.t) := by
  induction l with
  | nil => simp [insertByT]
  | cons x xs ih =>
    rw [insertByT]
    obtain ⟨hx, hxs⟩ := List.pairwise_cons.mp h
    split
    · rename_i hle
      refine List.Pairwise.cons ?_ (ih hxs)
      intro b hb
      rcases List.mem_cons.mp ((insertByT_perm e xs).mem_iff.mp hb) with hb | hb
      · exact hb ▸ hle
      · exact hx b hb
    · rename_i hlt
      refine List.Pairwise.cons ?_ (List.Pairwise.cons hx hxs)
      intro b hb
      rcases List.mem_cons.mp hb with hb | hb
      · exact hb ▸ le_of_lt (lt_of_not_le hlt)
      · exact le_trans (le_of_lt (lt_of_not_le hlt)) (hx b hb)

theorem sortByT_sorted (l : List SynthEvent) :
    (sortByT l).Pairwise (fun a b => a.t ≤ b.t) := by
  suffices h : ∀ acc : List SynthEvent, acc.Pairwise (fun a b => a.t ≤ b.t) →
      (l.foldl (fun acc e => insertByT e acc) acc).Pairwise (fun a b => a.t ≤ b.t) by
    exact h [] (by simp)
  induction l with
  | nil => intro acc h; simpa using h
  | cons x xs ih =>
    intro acc hacc
    exact ih (insertByT x acc) (insertByT_sorted x acc hacc)

theorem sortByT_mem {e : SynthEvent} {l : List SynthEvent} :
    e ∈ sortByT l ↔ e ∈ l :=
  (sortByT_perm l).mem_iff

/-! ## Lemmas about the name-indexed maps -/

theorem mapGet_mapSet {α : Type} (n k : String) (v : α) (m : List (String × α)) :
    mapGet n (mapSet k v m) = if k = n then some v else mapGet n m := by
  induction m with
  | nil => simp [mapSet, mapGet]
  | cons p rest ih =>
    obtain ⟨k', v'⟩ := p
    rw [mapSet]
    by_cases hk : k' = k
    · subst hk
      by_cases h : k' = n <;> simp [mapGet, h]
    · by_cases h : k' = n
      · subst h
        have hkn : ¬ k = k' := fun hc => hk hc.symm
        simp [mapGet, hkn, hk]
      · simp [hk, mapGet, h, ih]

/-- Indexing a list of named definitions with `Map.set` resolves every name
to the definition appearing **last** in source order. -/
theorem buildIndex_get {α : Type} (key : α → String) (l : List α) (n : String) :
    mapGet n (buildIndex key l) = lastDefined key l n := by
  suffices h : ∀ m₀ : List (String × α),
      mapGet n (l.foldl (fun m x => mapSet (key x) x m) m₀) =
        match lastDefined key l n with
        | some x => some x
        | none => mapGet n m₀ by
    have := h []
    rcases hl : lastDefined key l n with - | y <;>
      simpa [buildIndex, mapGet, hl] using h []
  induction l with
  | nil => intro m₀; simp [lastDefined]
  | cons x xs ih =>
    intro m₀
    rw [List.foldl_cons, ih, lastDefined, mapGet_mapSet]
    rcases hfind : lastDefined key xs n with - | y
    · by_cases h : key x = n <;> simp [h]
    · simp

/-! ## The JavaScript remainder and parity -/

/-- `i % 2 === 1` under the JavaScript (truncated, sign-of-dividend)
remainder holds exactly for the odd **non-negative** integers. -/
theorem tmod_two_eq_one_iff (i : ℤ) : Int.tmod i 2 = 1 ↔ Odd i ∧ 0 ≤ i := by
  rcases i with m | m
  · have h1 : Int.tmod (Int.ofNat m) 2 = Int.ofNat (m % 2) := rfl
    rw [h1]
    simp only [Int.ofNat_eq_coe, Int.odd_iff]
    omega
  · have h1 : Int.tmod (Int.negSucc m) 2 = - Int.ofNat ((m + 1) % 2) := rfl
    rw [h1, Int.negSucc_eq]
    simp only [Int.ofNat_eq_coe, Int.odd_iff]
    omega

/-! ## Compiler walk lemmas -/

theorem except_ok_bind {ε α β : Type} (a : α) (f : α → Except ε β) :
    (do let x ← (Except.ok a : Except ε α); f x) = f a := rfl

theorem except_error_bind {ε α β : Type} (e : ε) (f : α → Except ε β) :
    (do let x ← (Except.error e : Except ε α); f x) = (Except.error e : Except ε β) := rfl

/-- Walking `xs ++ ys` walks `xs` and continues from its end time, the
events concatenating in emission order. -/
theorem compileSequenceItems_append (fuel : ℕ) (xs ys : List SequenceItem)
    (inst : InstDirective) (tr : Option String) (ctx : CompilerContext) :
    ∀ t : ℚ, compileSequenceItems fuel (xs ++ ys) t inst tr ctx = (do
      let (es₁, t₁) ← compileSequenceItems fuel xs t inst tr ctx
      let (es₂, t₂) ← compileSequenceItems fuel ys t₁ inst tr ctx
      .ok (es₁ ++ es₂, t₂)) := by
  induction xs with
  | nil =>
    intro t
    rw [List.nil_append, compileSequenceItems]
    cases h : compileSequenceItems fuel ys t inst tr ctx with
    | error e => simp [except_ok_bind, except_error_bind, h]
    | ok r => obtain ⟨es, t'⟩ := r; simp [except_ok_bind, h]
  | cons i rest ih =>
    intro t
    rw [List.cons_append, compileSequenceItems, compileSequenceItems]
    cases h : compileSequenceItem fuel i t inst tr ctx with
    | error e => simp [except_error_bind, h]
    | ok r =>
      obtain ⟨es₁, t₁⟩ := r
      simp only [except_ok_bind, h, ih t₁]
      cases h₂ : compileSequenceItems fuel rest t₁ inst tr ctx with
      | error e => simp [except_error_bind]
      | ok r₂ =>
        obtain ⟨es₂, t₂⟩ := r₂
        simp only [except_ok_bind]
        cases h₃ : compileSequenceItems fuel ys t₂ inst tr ctx with
        | error e => simp [except_error_bind]
        | ok r₃ =>
          obtain ⟨es₃, t₃⟩ := r₃
          simp [except_ok_bind, List.append_assoc]

/-- The expansion loop of `compileRepeatBlock` / `compilePatternUse` walks
exactly the `count`-fold literal concatenation of its body. -/
theorem compileExpandLoop_eq_join (fuel : ℕ) (items : List SequenceItem)
    (inst : InstDirective) (tr : Option String) (ctx : CompilerContext) :
    ∀ (count : ℕ) (t : ℚ),
      compileExpandLoop fuel count items t inst tr ctx =
        compileSequenceItems fuel (List.flatten (List.replicate count items)) t inst tr ctx := by
  intro count
  induction count with
  | zero =>
    intro t
    rw [compileExpandLoop]
    simp [compileSequenceItems]
  | succ c ih =>
    intro t
    rw [compileExpandLoop, List.replicate_succ, List.flatten_cons,
        compileSequenceItems_append]
    cases h : compileSequenceItems fuel items t inst tr ctx with
    | error e => simp [except_error_bind, h]
    | ok r => obtain ⟨es₁, t₁⟩ := r; simp [except_ok_bind, h, ih t₁]

/-- Expansion depth budgets are monotone: a successful walk stays successful
with the same result when the budget grows. -/
theorem compileSequenceItems_fuel_succ
    (fuel : ℕ) (items : List SequenceItem) (t : ℚ) (inst : InstDirective)
    (tr : Option String) (ctx : CompilerContext) :
    ∀ r, compileSequenceItems fuel items t inst tr ctx = .ok r →
      compileSequenceItems (fuel + 1) items t inst tr ctx = .ok r := by
  refine compileSequenceItems.induct
    (fun fuel items t inst tr ctx =>
      ∀ r, compileSequenceItems fuel items t inst tr ctx = .ok r →
        compileSequenceItems (fuel + 1) items t inst tr ctx = .ok r)
    (fun fuel item t inst tr ctx =>
      ∀ r, compileSequenceItem fuel item t inst tr ctx = .ok r →
        compileSequenceItem (fuel + 1) item t inst tr ctx = .ok r)
    (fun fuel count items t inst tr ctx =>
      ∀ r, compileExpandLoop fuel count items t inst tr ctx = .ok r →
        compileExpandLoop (fuel + 1) count items t inst tr ctx = .ok r)
    ?_ ?_ ?_ ?_ ?_ ?_ ?_ ?_ ?_ ?_ ?_ fuel items t inst tr ctx
  · intro fuel t inst tr ctx r h
    rw [compileSequenceItems] at h ⊢
    exact h
  · intro fuel t inst tr ctx item rest hitem hrest r h
    rw [compileSequenceItems] at h ⊢
    cases h₁ : compileSequenceItem fuel item t inst tr ctx with
    | error e => rw [h₁, except_error_bind] at h; exact absurd h (by simp)
    | ok r₁ =>
      obtain ⟨es₁, t₁⟩ := r₁
      rw [h₁, except_ok_bind] at h
      rw [hitem _ h₁, except_ok_bind]
      simp only at h ⊢
      cases h₂ : compileSequenceItems fuel rest t₁ inst tr ctx with
      | error e => rw [h₂, except_error_bind] at h; exact absurd h (by simp)
      | ok r₂ =>
        rw [h₂, except_ok_bind] at h
        rw [hrest t₁ _ h₂, except_ok_bind]
        exact h
  · intro fuel t inst tr ctx p d v r h
    rw [compileSequenceItem] at h ⊢
    exact h
  · intro fuel t inst tr ctx d r h
    rw [compileSequenceItem] at h ⊢
    exact h
  · intro fuel t inst tr ctx ps d v r h
    rw [compileSequenceItem] at h ⊢
    exact h
  · intro fuel t inst tr ctx c body hloop r h
    rw [compileSequenceItem] at h ⊢
    exact hloop r h
  · intro fuel t inst tr ctx nm reps hnone r h
    rw [compileSequenceItem] at h
    rw [hnone] at h
    exact absurd h (by simp)
  · intro t inst tr ctx nm reps pat hsome r h
    rw [compileSequenceItem] at h
    rw [hsome] at h
    exact absurd h (by simp)
  · intro t inst tr ctx nm reps pat hsome f hloop r h
    rw [compileSequenceItem] at h ⊢
    rw [hsome] at h ⊢
    exact hloop r h
  · intro fuel body t inst tr ctx r h
    rw [compileExpandLoop] at h ⊢
    exact h
  · intro fuel body t inst tr ctx c hitems hloop r h
    rw [compileExpandLoop] at h ⊢
    cases h₁ : compileSequenceItems fuel body t inst tr ctx with
    | error e => rw [h₁, except_error_bind] at h; exact absurd h (by simp)
    | ok r₁ =>
      obtain ⟨es₁, t₁⟩ := r₁
      rw [h₁, except_ok_bind] at h
      rw [hitems _ h₁, except_ok_bind]
      simp only at h ⊢
      cases h₂ : compileExpandLoop fuel c body t₁ inst tr ctx with
      | error e => rw [h₂, except_error_bind] at h; exact absurd h (by simp)
      | ok r₂ =>
        rw [h₂, except_ok_bind] at h
        rw [hloop t₁ _ h₂, except_ok_bind]
        exact h

theorem compileSequenceItems_fuel_le
    (fuel fuel' : ℕ) (hle : fuel ≤ fuel') (items : List SequenceItem) (t : ℚ)
    (inst : InstDirective) (tr : Option String) (ctx : CompilerContext)
    (r : List SynthEvent × ℚ)
    (h : compileSequenceItems fuel items t inst tr ctx = .ok r) :
    compileSequenceItems fuel' items t inst tr ctx = .ok r := by
  induction fuel', hle using Nat.le_induction with
  | base => exact h
  | succ n hn ih => exact compileSequenceItems_fuel_succ n items t inst tr ctx r ih

/-! ## Event well-formedness (claim C7's invariants) -/

/-- The event invariants stated in the specification: non-negative time and
duration, notes carry MIDI and frequency, rests carry neither and are
silent. -/
def eventWellFormed (e : SynthEvent) : Prop :=
  0 ≤ e.t ∧ 0 ≤ e.dur ∧
  (e.kind = .note → e.midi.isSome ∧ e.freq.isSome) ∧
  (e.kind = .rest → e.midi = none ∧ e.freq = none ∧ e.vel = 0)

theorem parseDurationToSeconds_pos (d : Duration) (bpm q : ℚ)
    (h : parseDurationToSeconds d bpm = .ok q) : 0 < q := by
  rw [parseDurationToSeconds, parseDuration] at h
  by_cases hn : d.numerator = 0
  · rw [if_pos hn] at h; exact absurd h (by simp [except_error_bind])
  · rw [if_neg hn] at h
    by_cases hd : d.denominator = 0
    · rw [if_pos hd] at h; exact absurd h (by simp [except_error_bind])
    · rw [if_neg hd, except_ok_bind, durationToSeconds] at h
      by_cases hb : bpm ≤ 0
      · rw [if_pos hb] at h; exact absurd h (by simp)
      · rw [if_neg hb] at h
        obtain rfl : _ = q := (Except.ok.injEq _ _).mp h
        push_neg at hb
        have h1 : (0 : ℚ) < (d.numerator : ℚ) := by
          exact_mod_cast Nat.pos_of_ne_zero hn
        have h2 : (0 : ℚ) < (d.denominator : ℚ) := by
          exact_mod_cast Nat.pos_of_ne_zero hd
        have h3 : (0 : ℚ) < 60 / bpm := by positivity
        positivity

theorem compileNote_wf (p : Pitch) (d : Duration) (v : Option ℚ) (t : ℚ)
    (inst : InstDirective) (tr : Option String) (ctx : CompilerContext)
    (es : List SynthEvent) (t' : ℚ)
    (h : compileNote p d v t inst tr ctx = .ok (es, t')) (ht : 0 ≤ t) :
    t ≤ t' ∧ ∀ e ∈ es, eventWellFormed e := by
  rw [compileNote] at h
  cases hd : parseDurationToSeconds d ctx.bpm with
  | error e => rw [hd, except_error_bind] at h; exact absurd h (by simp)
  | ok dur =>
    have hpos := parseDurationToSeconds_pos d ctx.bpm dur hd
    rw [hd, except_ok_bind] at h
    cases hp : parsePitch p with
    | error e => rw [hp, except_error_bind] at h; exact absurd h (by simp)
    | ok p' =>
      rw [hp, except_ok_bind] at h
      obtain ⟨rfl, rfl⟩ := Prod.mk.injEq .. ▸ (Except.ok.injEq _ _).mp h
      refine ⟨by linarith, ?_⟩
      intro e he
      rcases List.mem_singleton.mp he with rfl
      exact ⟨ht, le_of_lt hpos, by simp, by simp⟩

theorem compileRest_wf (d : Duration) (t : ℚ)
    (inst : InstDirective) (tr : Option String) (ctx : CompilerContext)
    (es : List SynthEvent) (t' : ℚ)
    (h : compileRest d t inst tr ctx = .ok (es, t')) (ht : 0 ≤ t) :
    t ≤ t' ∧ ∀ e ∈ es, eventWellFormed e := by
  rw [compileRest] at h
  cases hd : parseDurationToSeconds d ctx.bpm with
  | error e => rw [hd, except_error_bind] at h; exact absurd h (by simp)
  | ok dur =>
    have hpos := parseDurationToSeconds_pos d ctx.bpm dur hd
    rw [hd, except_ok_bind] at h
    obtain ⟨rfl, rfl⟩ := Prod.mk.injEq .. ▸ (Except.ok.injEq _ _).mp h
    refine ⟨by linarith, ?_⟩
    intro e he
    rcases List.mem_singleton.mp he with rfl
    exact ⟨ht, le_of_lt hpos, by simp, by simp⟩

theorem chordEvents_wf (ps : List Pitch) (t dur v : ℚ)
    (inst : InstDirective) (tr : Option String) (es : List SynthEvent)
    (h : chordEvents ps t dur v inst tr = .ok es) (ht : 0 ≤ t) (hd : 0 ≤ dur) :
    ∀ e ∈ es, eventWellFormed e := by
  induction ps generalizing es with
  | nil =>
    rw [chordEvents] at h
    obtain rfl := (Except.ok.injEq _ _).mp h
    simp
  | cons p rest ih =>
    rw [chordEvents] at h
    cases hp : parsePitch p with
    | error e => rw [hp, except_error_bind] at h; exact absurd h (by simp)
    | ok p' =>
      rw [hp, except_ok_bind] at h
      cases hr : chordEvents rest t dur v inst tr with
      | error e => rw [hr, except_error_bind] at h; exact absurd h (by simp)
      | ok es' =>
        rw [hr, except_ok_bind] at h
        obtain rfl := (Except.ok.injEq _ _).mp h
        intro e he
        rcases List.mem_cons.mp he with rfl | he
        · exact ⟨ht, hd, by simp, by simp⟩
        · exact ih es' hr e he

theorem compileChord_wf (ps : List Pitch) (d : Duration) (v : Option ℚ) (t : ℚ)
    (inst : InstDirective) (tr : Option String) (ctx : CompilerContext)
    (es : List SynthEvent) (t' : ℚ)
    (h : compileChord ps d v t inst tr ctx = .ok (es, t')) (ht : 0 ≤ t) :
    t ≤ t' ∧ ∀ e ∈ es, eventWellFormed e := by
  rw [compileChord] at h
  cases hd : parseDurationToSeconds d ctx.bpm with
  | error e => rw [hd, except_error_bind] at h; exact absurd h (by simp)
  | ok dur =>
    have hpos := parseDurationToSeconds_pos d ctx.bpm dur hd
    rw [hd, except_ok_bind] at h
    cases hc : chordEvents ps t dur (v.getD DEFAULT_VELOCITY) inst tr with
    | error e => rw [hc, except_error_bind] at h; exact absurd h (by simp)
    | ok es' =>
      rw [hc, except_ok_bind] at h
      obtain ⟨rfl, rfl⟩ := Prod.mk.injEq .. ▸ (Except.ok.injEq _ _).mp h
      exact ⟨by linarith, chordEvents_wf ps t dur _ inst tr es' hc ht (le_of_lt hpos)⟩

/-- Every successful walk starting at a non-negative cursor produces only
well-formed events and never moves the cursor backwards. -/
theorem compileSequenceItems_wf
    (fuel : ℕ) (items : List SequenceItem) (t : ℚ) (inst : InstDirective)
    (tr : Option String) (ctx : CompilerContext) :
    ∀ es t', compileSequenceItems fuel items t inst tr ctx = .ok (es, t') →
      0 ≤ t → t ≤ t' ∧ ∀ e ∈ es, eventWellFormed e := by
  refine compileSequenceItems.induct
    (fun fuel items t inst tr ctx =>
      ∀ es t', compileSequenceItems fuel items t inst tr ctx = .ok (es, t') →
        0 ≤ t → t ≤ t' ∧ ∀ e ∈ es, eventWellFormed e)
    (fun fuel item t inst tr ctx =>
      ∀ es t', compileSequenceItem fuel item t inst tr ctx = .ok (es, t') →
        0 ≤ t → t ≤ t' ∧ ∀ e ∈ es, eventWellFormed e)
    (fun fuel count items t inst tr ctx =>
      ∀ es t', compileExpandLoop fuel count items t inst tr ctx = .ok (es, t') →
        0 ≤ t → t ≤ t' ∧ ∀ e ∈ es, eventWellFormed e)
    ?_ ?_ ?_ ?_ ?_ ?_ ?_ ?_ ?_ ?_ ?_ fuel items t inst tr ctx
  · intro fuel t inst tr ctx es t' h ht
    rw [compileSequenceItems] at h
    obtain ⟨rfl, rfl⟩ := Prod.mk.injEq .. ▸ (Except.ok.injEq _ _).mp h
    simp
  · intro fuel t inst tr ctx item rest hitem hrest es t' h ht
    rw [compileSequenceItems] at h
    cases h₁ : compileSequenceItem fuel item t inst tr ctx with
    | error e => rw [h₁, except_error_bind] at h; exact absurd h (by simp)
    | ok r₁ =>
      obtain ⟨es₁, t₁⟩ := r₁
      rw [h₁, except_ok_bind] at h
      simp only at h
      cases h₂ : compileSequenceItems fuel rest t₁ inst tr ctx with
      | error e => rw [h₂, except_error_bind] at h; exact absurd h (by simp)
      | ok r₂ =>
        obtain ⟨es₂, t₂⟩ := r₂
        rw [h₂, except_ok_bind] at h
        obtain ⟨rfl, rfl⟩ := Prod.mk.injEq .. ▸ (Except.ok.injEq _ _).mp h
        obtain ⟨hle₁, hwf₁⟩ := hitem es₁ t₁ h₁ ht
        obtain ⟨hle₂, hwf₂⟩ := hrest t₁ es₂ t₂ h₂ (le_trans ht hle₁)
        refine ⟨le_trans hle₁ hle₂, ?_⟩
        intro e he
        rcases List.mem_append.mp he with he | he
        · exact hwf₁ e he
        · exact hwf₂ e he
  · intro fuel t inst tr ctx p d v es t' h ht
    rw [compileSequenceItem] at h
    exact compileNote_wf p d v t inst tr ctx es t' h ht
  · intro fuel t inst tr ctx d es t' h ht
    rw [compileSequenceItem] at h
    exact compileRest_wf d t inst tr ctx es t' h ht
  · intro fuel t inst tr ctx ps d v es t' h ht
    rw [compileSequenceItem] at h
    exact compileChord_wf ps d v t inst tr ctx es t' h ht
  · intro fuel t inst tr ctx c body hloop es t' h ht
    rw [compileSequenceItem] at h
    exact hloop es t' h ht
  · intro fuel t inst tr ctx nm reps hnone es t' h ht
    rw [compileSequenceItem, hnone] at h
    exact absurd h (by simp)
  · intro t inst tr ctx nm reps pat hsome es t' h ht
    rw [compileSequenceItem, hsome] at h
    exact absurd h (by simp)
  · intro t inst tr ctx nm reps pat hsome f hloop es t' h ht
    rw [compileSequenceItem, hsome] at h
    exact hloop es t' h ht
  · intro fuel body t inst tr ctx es t' h ht
    rw [compileExpandLoop] at h
    obtain ⟨rfl, rfl⟩ := Prod.mk.injEq .. ▸ (Except.ok.injEq _ _).mp h
    simp
  · intro fuel body t inst tr ctx c hitems hloop es t' h ht
    rw [compileExpandLoop] at h
    cases h₁ : compileSequenceItems fuel body t inst tr ctx with
    | error e => rw [h₁, except_error_bind] at h; exact absurd h (by simp)
    | ok r₁ =>
      obtain ⟨es₁, t₁⟩ := r₁
      rw [h₁, except_ok_bind] at h
      simp only at h
      cases h₂ : compileExpandLoop fuel c body t₁ inst tr ctx with
      | error e => rw [h₂, except_error_bind] at h; exact absurd h (by simp)
      | ok r₂ =>
        obtain ⟨es₂, t₂⟩ := r₂
        rw [h₂, except_ok_bind] at h
        obtain ⟨rfl, rfl⟩ := Prod.mk.injEq .. ▸ (Except.ok.injEq _ _).mp h
        obtain ⟨hle₁, hwf₁⟩ := hitems es₁ t₁ h₁ ht
        obtain ⟨hle₂, hwf₂⟩ := hloop t₁ es₂ t₂ h₂ (le_trans ht hle₁)
        refine ⟨le_trans hle₁ hle₂, ?_⟩
        intro e he
        rcases List.mem_append.mp he with he | he
        · exact hwf₁ e he
        · exact hwf₂ e he

theorem compileTracksLoop_wf (fuel : ℕ) (tracks : List TrackDefinition)
    (ctx : CompilerContext) (es : List SynthEvent)
    (h : compileTracksLoop fuel tracks ctx = .ok es) :
    ∀ e ∈ es, eventWellFormed e := by
  induction tracks generalizing es with
  | nil =>
    rw [compileTracksLoop] at h
    obtain rfl := (Except.ok.injEq _ _).mp h
    simp
  | cons track rest ih =>
    rw [compileTracksLoop] at h
    cases hi : mapGet track.instrumentName ctx.instruments with
    | none => rw [hi] at h; exact absurd h (by simp)
    | some inst =>
      rw [hi] at h
      simp only at h
      cases h₁ : compileSequenceItems fuel track.items 0 inst (some track.name) ctx with
      | error e => rw [h₁, except_error_bind] at h; exact absurd h (by simp)
      | ok r₁ =>
        obtain ⟨es₁, t₁⟩ := r₁
        rw [h₁, except_ok_bind] at h
        simp only at h
        cases h₂ : compileTracksLoop fuel rest ctx with
        | error e => rw [h₂, except_error_bind] at h; exact absurd h (by simp)
        | ok es₂ =>
          rw [h₂, except_ok_bind] at h
          obtain rfl := (Except.ok.injEq _ _).mp h
          obtain ⟨-, hwf₁⟩ :=
            compileSequenceItems_wf fuel track.items 0 inst (some track.name) ctx
              es₁ t₁ h₁ le_rfl
          intro e he
          rcases List.mem_append.mp he with he | he
          · exact hwf₁ e he
          · exact ih es₂ h₂ e he

/-- A successful `compile` returns a list that is a stable `t`-sort of the
emitted events; hence it is sorted and all its events are well-formed. -/
theorem compile_wf (fuel : ℕ) (ast : Program) (es : List SynthEvent)
    (h : compile fuel ast = .ok es) :
    (∀ e ∈ es, eventWellFormed e) ∧ es.Pairwise (fun a b => a.t ≤ b.t) := by
  rw [compile] at h
  cases hseq : ast.sequence with
  | none =>
    rw [hseq] at h
    simp only at h
    rw [except_ok_bind] at h
    cases h₂ : compileTracksLoop fuel ast.tracks
        (contextOf ast) with
    | error e => rw [h₂, except_error_bind] at h; exact absurd h (by simp)
    | ok es₂ =>
      rw [h₂, except_ok_bind] at h
      obtain rfl := (Except.ok.injEq _ _).mp h
      constructor
      · intro e he
        have := sortByT_mem.mp he
        rw [List.nil_append] at this
        exact compileTracksLoop_wf fuel ast.tracks _ es₂ h₂ e this
      · exact sortByT_sorted _
  | some seqItems =>
    rw [hseq] at h
    simp only at h
    cases h₁ : compileSequenceItems fuel seqItems 0 ast.instrument none
        (contextOf ast) with
    | error e => rw [h₁, except_error_bind] at h; exact absurd h (by simp)
    | ok r₁ =>
      obtain ⟨es₁, t₁⟩ := r₁
      rw [h₁, except_ok_bind] at h
      simp only at h
      rw [except_ok_bind] at h
      cases h₂ : compileTracksLoop fuel ast.tracks
          (contextOf ast) with
      | error e => rw [h₂, except_error_bind] at h; exact absurd h (by simp)
      | ok es₂ =>
        rw [h₂, except_ok_bind] at h
        obtain rfl := (Except.ok.injEq _ _).mp h
        constructor
        · intro e he
          obtain ⟨-, hwf₁⟩ :=
            compileSequenceItems_wf fuel seqItems 0 ast.instrument none _ es₁ t₁ h₁ le_rfl
          rcases List.mem_append.mp (sortByT_mem.mp he) with he | he
          · exact hwf₁ e he
          · exact compileTracksLoop_wf fuel ast.tracks _ es₂ h₂ e he
        · exact sortByT_sorted _

/-! ## Swing transform lemmas -/

theorem swingMapEvent_wf (s sd : ℚ) (e : SynthEvent) (h : eventWellFormed e) :
    eventWellFormed (swingMapEvent s sd e) := by
  obtain ⟨ht, hd, hn, hr⟩ := h
  rw [swingMapEvent]
  split
  · exact ⟨le_max_left 0 _, hd, hn, hr⟩
  · exact ⟨ht, hd, hn, hr⟩

theorem applySwing_wf (events : List SynthEvent) (swing grid bpm : ℚ)
    (h : ∀ e ∈ events, eventWellFormed e) :
    ∀ e ∈ applySwing events swing grid bpm, eventWellFormed e := by
  rw [applySwing]
  split
  · exact h
  · intro e he
    obtain ⟨e₀, he₀, rfl⟩ := List.mem_map.mp (sortByT_mem.mp he)
    exact swingMapEvent_wf _ _ e₀ (h e₀ he₀)

theorem applySwing_sorted (events : List SynthEvent) (swing grid bpm : ℚ)
    (hs : events.Pairwise (fun a b => a.t ≤ b.t)) :
    (applySwing events swing grid bpm).Pairwise (fun a b => a.t ≤ b.t) := by
  rw [applySwing]
  split
  · exact hs
  · exact sortByT_sorted _

/-! ## Claim C10 — `stop()` is a silent no-op when already stopped -/

/-- C10: if the scheduler is not playing and no tick timer is active,
`stop()` returns immediately: the transport state (including
`nextNoteIndex`, `currentLoopIteration`, `scheduledInCurrentLoop` and the
mute/solo sets) is unchanged and no effect — neither the backend cancel-all
(`engineStopPlayback`) nor a transport-state notification — is performed. -/
theorem c10_stop_idempotent_when_stopped (st : TransportData)
    (h₁ : st.playing = false) (h₂ : st.timerID = none) :
    stop st = (st, []) := by
  rw [stop, if_pos]
  exact ⟨by simp [h₁], h₂⟩

/-- Witness for C10 at a concrete stopped transport state. -/
theorem c10_stop_idempotent_when_stopped_witness :
    stoppedTransport.playing = false ∧ stoppedTransport.timerID = none ∧
      stop stoppedTransport = (stoppedTransport, []) :=
  ⟨rfl, rfl, c10_stop_idempotent_when_stopped stoppedTransport rfl rfl⟩

/-! ## Claim C8 — the mute/solo track filter -/

/-- C8: with `T = event.track ?? "default"`, `shouldPlayEvent` accepts the
event iff `T ∈ soloedTracks` when the soloed set is non-empty, and iff
`T ∉ mutedTracks` otherwise; consequently muting a soloed track (what
`setTrackMuted` does: adding `T` to the muted set) does not silence it. -/
theorem c8_track_filter (mutedTracks soloedTracks : List String) (event : SynthEvent) :
    (shouldPlayEvent mutedTracks soloedTracks event = true ↔
      (if soloedTracks ≠ [] then event.track.getD "default" ∈ soloedTracks
       else event.track.getD "default" ∉ mutedTracks)) ∧
    (event.track.getD "default" ∈ soloedTracks →
      shouldPlayEvent (event.track.getD "default" :: mutedTracks) soloedTracks event = true) := by
  constructor
  · rw [shouldPlayEvent]
    cases soloedTracks with
    | nil => simp
    | cons s rest => simp
  · intro hmem
    rw [shouldPlayEvent]
    have hne : 0 < soloedTracks.length := List.length_pos_of_mem hmem
    simp only [if_pos hne]
    simpa using hmem

/-- Witness for C8: an event on track `"a"`, with `"a"` both muted and
soloed, is still accepted. -/
theorem c8_track_filter_witness :
    trackAEvent.track.getD "default" ∈ ["a"] ∧
      shouldPlayEvent (trackAEvent.track.getD "default" :: ["b"]) ["a"] trackAEvent = true :=
  ⟨by simp [trackAEvent], (c8_track_filter ["b"] ["a"] trackAEvent).2 (by simp [trackAEvent])⟩

/-! ## Claim C6 — chord compilation -/

/-- The chord emission loop: one note event per pitch, in declared order,
all sharing the chord's start time and duration. -/
theorem chordEvents_shape (ps : List Pitch) (t dur v : ℚ)
    (inst : InstDirective) (tr : Option String) (es : List SynthEvent)
    (h : chordEvents ps t dur v inst tr = .ok es) :
    es.length = ps.length ∧
    (∀ e ∈ es, e.t = t ∧ e.dur = dur ∧ e.kind = .note) ∧
    es.map (·.midi) = ps.map (fun p => some (pitchToMidi p)) := by
  induction ps generalizing es with
  | nil =>
    rw [chordEvents] at h
    obtain rfl := (Except.ok.injEq _ _).mp h
    simp
  | cons p rest ih =>
    rw [chordEvents] at h
    cases hp : parsePitch p with
    | error e => rw [hp, except_error_bind] at h; exact absurd h (by simp)
    | ok p' =>
      have hp' : p' = p := by
        rw [parsePitch] at hp
        split at hp
        · exact ((Except.ok.injEq _ _).mp hp).symm
        · exact absurd hp (by simp)
      subst hp'
      rw [hp, except_ok_bind] at h
      cases hr : chordEvents rest t dur v inst tr with
      | error e => rw [hr, except_error_bind] at h; exact absurd h (by simp)
      | ok es' =>
        rw [hr, except_ok_bind] at h
        obtain rfl := (Except.ok.injEq _ _).mp h
        obtain ⟨hlen, hall, hmap⟩ := ih es' hr
        refine ⟨by simp [hlen], ?_, by simp [hmap]⟩
        intro e he
        rcases List.mem_cons.mp he with rfl | he
        · exact ⟨rfl, rfl, rfl⟩
        · exact hall e he

/-- C6: a successfully compiled chord of `k` pitches with duration `d` at
cursor `t` emits exactly `k` note events, all with start time `t` and the
chord's duration, in declared pitch order, and the cursor advances to
`t + dur` — once, not `k` times. -/
theorem c6_chord_cursor (ps : List Pitch) (d : Duration) (v : Option ℚ)
    (t : ℚ) (inst : InstDirective) (tr : Option String) (ctx : CompilerContext)
    (es : List SynthEvent) (t' : ℚ)
    (h : compileChord ps d v t inst tr ctx = .ok (es, t')) :
    ∃ dur : ℚ, parseDurationToSeconds d ctx.bpm = .ok dur ∧
      es.length = ps.length ∧
      (∀ e ∈ es, e.t = t ∧ e.dur = dur ∧ e.kind = .note) ∧
      es.map (·.midi) = ps.map (fun p => some (pitchToMidi p)) ∧
      t' = t + dur := by
  rw [compileChord] at h
  cases hd : parseDurationToSeconds d ctx.bpm with
  | error e => rw [hd, except_error_bind] at h; exact absurd h (by simp)
  | ok dur =>
    rw [hd, except_ok_bind] at h
    cases hc : chordEvents ps t dur (v.getD DEFAULT_VELOCITY) inst tr with
    | error e => rw [hc, except_error_bind] at h; exact absurd h (by simp)
    | ok es' =>
      rw [hc, except_ok_bind] at h
      obtain ⟨rfl, rfl⟩ := Prod.mk.injEq .. ▸ (Except.ok.injEq _ _).mp h
      obtain ⟨hlen, hall, hmap⟩ := chordEvents_shape ps t dur _ inst tr es' hc
      exact ⟨dur, rfl, hlen, hall, hmap, rfl⟩

/-- Witness for C6: the chord `[C4 D4 E4] 1/4` at bpm 120 compiled at
cursor 1 emits three note events at `t = 1` with `dur = 1/2` and the
cursor moves to `3/2`, once. -/
theorem c6_chord_cursor_witness :
    ∃ dur : ℚ, parseDurationToSeconds q4 simpleCtx.bpm = .ok dur ∧
      chordWitnessEvents.length = [pC4, pD4, pE4].length ∧
      (∀ e ∈ chordWitnessEvents, e.t = 1 ∧ e.dur = dur ∧ e.kind = .note) ∧
      chordWitnessEvents.map (·.midi) = [pC4, pD4, pE4].map (fun p => some (pitchToMidi p)) ∧
      (3/2 : ℚ) = 1 + dur := by
  have hcompile : compileChord [pC4, pD4, pE4] q4 none 1 leadInst none simpleCtx =
      .ok (chordWitnessEvents, 3/2) := by
    simp [compileChord, chordEvents, chordWitnessEvents, parseDurationToSeconds,
      parseDuration, durationToSeconds, parsePitch, pitchToMidi, midiToFrequency,
      noteSemitones, simpleCtx, leadInst, pC4, pD4, pE4, q4, attachTrack,
      DEFAULT_VELOCITY, except_ok_bind, except_error_bind]
    norm_num [except_ok_bind]
  exact c6_chord_cursor [pC4, pD4, pE4] q4 none 1 leadInst none simpleCtx
    chordWitnessEvents (3/2) hcompile

/-! ## Claim C1 — the sort order of the compiled event list -/

/-- C1 (amended): every successfully compiled event list is sorted
non-decreasingly by `t`.  (The tie-break among equal times is the stable
emission order — `compile` sorts with the single comparator `a.t - b.t` —
not the claimed (track-name, midi) secondary key; see the counterexample.) -/
theorem c1_compile_sorted_by_t (fuel : ℕ) (ast : Program) (es : List SynthEvent)
    (h : compile fuel ast = .ok es) :
    es.Pairwise (fun a b => a.t ≤ b.t) :=
  (compile_wf fuel ast es h).2

/-- Witness for C1 at `bpm 120 / seq: C4 1/4, D4 1/4`. -/
theorem c1_compile_sorted_by_t_witness :
    ([ { t := 0, dur := 1/2, kind := .note, midi := some 60, freq := some 60
         vel := 8/10, inst := "lead", waveform := "sine", track := none
         gain := none, adsr := none },
       { t := 1/2, dur := 1/2, kind := .note, midi := some 62, freq := some 62
         vel := 8/10, inst := "lead", waveform := "sine", track := none
         gain := none, adsr := none } ] : List SynthEvent).Pairwise
      (fun a b => a.t ≤ b.t) := by
  have hcompile : compile 1 ast1 = .ok
      [ { t := 0, dur := 1/2, kind := .note, midi := some 60, freq := some 60
          vel := 8/10, inst := "lead", waveform := "sine", track := none
          gain := none, adsr := none },
        { t := 1/2, dur := 1/2, kind := .note, midi := some 62, freq := some 62
          vel := 8/10, inst := "lead", waveform := "sine", track := none
          gain := none, adsr := none } ] := by
    simp [compile, contextOf, ast1, compileSequenceItems, compileSequenceItem, compileNote,
      parseDurationToSeconds, parseDuration, durationToSeconds, parsePitch,
      pitchToMidi, midiToFrequency, noteSemitones, buildIndex, leadInst, pC4, pD4,
      q4, attachTrack, DEFAULT_VELOCITY, compileTracksLoop, sortByT, insertByT,
      except_ok_bind, except_error_bind]
    norm_num [except_ok_bind]
  exact c1_compile_sorted_by_t 1 ast1 _ hcompile

/-- Counterexample for C1 as stated: compiling `seq: [E4 C4] 1/4` yields two
events with equal `t` (and equal absent track name) whose MIDI numbers come
out in **descending** order 64, 60 — emission order is kept, the claimed
(track-name, midi-ascending) secondary key is not applied. -/
theorem c1_secondary_key_counterexample :
    compile 1 chordAst = .ok [chordEventE4, chordEventC4] ∧
    chordEventE4.t = chordEventC4.t ∧
    chordEventE4.track = chordEventC4.track ∧
    chordEventE4.midi = some 64 ∧ chordEventC4.midi = some 60 ∧
    ¬ ((64 : ℤ) ≤ 60) := by
  refine ⟨?_, rfl, rfl, rfl, rfl, by norm_num⟩
  simp [compile, contextOf, chordAst, compileSequenceItems, compileSequenceItem, compileChord,
    chordEvents, parseDurationToSeconds, parseDuration, durationToSeconds,
    parsePitch, pitchToMidi, midiToFrequency, noteSemitones, buildIndex, leadInst,
    pC4, pE4, q4, attachTrack, DEFAULT_VELOCITY, compileTracksLoop, sortByT,
    insertByT, chordEventE4, chordEventC4, except_ok_bind, except_error_bind]
  norm_num [except_ok_bind]

/-! ## Claim C2 — the swing transform -/

/-- C2 (amended): `applySwing` with swing 0 is the identity; with positive
swing it maps every event through the grid test — time replaced by
`max 0 (t + swing·s)` exactly when `|t − round(t/s)·s| < 10⁻³·s` **and**
`round(t/s)` is odd and non-negative (the source tests `i % 2 === 1` with
the JavaScript truncated remainder, which odd negative indices fail) —
leaving all other events unchanged in every field, and re-sorts by `t`. -/
theorem c2_swing_transform (events : List SynthEvent) (swing grid bpm : ℚ) :
    applySwing events 0 grid bpm = events ∧
    (0 < swing → applySwing events swing grid bpm =
      sortByT (events.map (swingSpecMap swing ((60 / bpm) * (4 / grid))))) := by
  constructor
  · rw [applySwing, if_pos rfl]
  · intro hpos
    rw [applySwing, if_neg (ne_of_gt hpos)]
    have hfun : ∀ e, swingMapEvent swing ((60 / bpm) * (4 / grid)) e =
        swingSpecMap swing ((60 / bpm) * (4 / grid)) e := by
      intro e
      have hiff := tmod_two_eq_one_iff (round (e.t / ((60 / bpm) * (4 / grid))))
      simp only [swingMapEvent, swingSpecMap]
      exact if_congr (and_congr Iff.rfl hiff) rfl rfl
    show sortByT (List.map (swingMapEvent swing ((60 / bpm) * (4 / grid))) events) = _
    rw [List.map_congr_left fun e _ => hfun e]

/-- Witness for C2: a grid-aligned event on odd subdivision 1
(`t = 1/8 = s` at bpm 120, grid 16). -/
theorem c2_swing_transform_witness :
    applySwing [swingWitEvent] 0 16 120 = [swingWitEvent] ∧
    applySwing [swingWitEvent] (1/2) 16 120 =
      sortByT ([swingWitEvent].map (swingSpecMap (1/2) ((60/120) * (4/16)))) :=
  ⟨(c2_swing_transform [swingWitEvent] (1/2) 16 120).1,
   (c2_swing_transform [swingWitEvent] (1/2) 16 120).2 (by norm_num)⟩

/-- Counterexample for C2 as stated: the event at `t = −1/2` with
bpm 120, grid 4 (subdivision `s = 1/2`) sits exactly on subdivision
`round(t/s) = −1`, which is odd, so the claim demands its time become
`max 0 (−1/2 + (1/2)·(1/2)) = 0`; `applySwing` leaves it unchanged, because
`(-1) % 2 === 1` fails under the JavaScript remainder. -/
theorem c2_negative_odd_counterexample :
    applySwing [swingCexEvent] (1/2) 4 120 = [swingCexEvent] ∧
    |swingCexEvent.t - ((round (swingCexEvent.t / ((60/120) * (4/4)))) : ℚ) *
        ((60/120) * (4/4))| < ((60/120) * (4/4)) * (1/1000) ∧
    Odd (round (swingCexEvent.t / ((60/120) * (4/4)))) ∧
    max 0 (swingCexEvent.t + (1/2) * ((60/120) * (4/4))) ≠ swingCexEvent.t := by
  have hround : round ((-1/2 : ℚ) / ((60/120) * (4/4))) = -1 := by
    norm_num [round_eq]
  refine ⟨?_, ?_, ?_, ?_⟩
  · rw [applySwing, if_neg (by norm_num)]
    have hmap : swingMapEvent (1/2) ((60/120) * (4/4)) swingCexEvent = swingCexEvent := by
      rw [swingMapEvent]
      simp only [swingCexEvent]
      rw [if_neg]
      rintro ⟨-, h2⟩
      rw [hround] at h2
      exact absurd h2 (by decide)
    show sortByT (List.map (swingMapEvent (1/2) ((60/120) * (4/4))) [swingCexEvent]) =
      [swingCexEvent]
    rw [List.map_singleton, hmap]
    rfl
  · simp only [swingCexEvent]
    rw [hround]
    norm_num
  · simp only [swingCexEvent]
    rw [hround]
    decide
  · simp only [swingCexEvent]
    norm_num

/-! ## Claim C3 — cyclic pattern references -/

/-- Expanding `use a` or `use b` in the cyclic context exhausts every
expansion-depth budget: the source recursion never terminates. -/
theorem cyclic_use_exhausts_fuel : ∀ (f : ℕ) (t : ℚ),
    compileSequenceItems f [.patternUse "a" 1] t leadInst none cyclicCtx =
      .error .fuelExhausted ∧
    compileSequenceItems f [.patternUse "b" 1] t leadInst none cyclicCtx =
      .error .fuelExhausted := by
  have hlookA : mapGet "a" cyclicCtx.patterns = some ⟨"a", [.patternUse "b" 1]⟩ := rfl
  have hlookB : mapGet "b" cyclicCtx.patterns = some ⟨"b", [.patternUse "a" 1]⟩ := rfl
  intro f
  induction f with
  | zero =>
    intro t
    constructor
    · simp only [compileSequenceItems, compileSequenceItem, hlookA, except_error_bind]
    · simp only [compileSequenceItems, compileSequenceItem, hlookB, except_error_bind]
  | succ f ih =>
    intro t
    constructor
    · simp only [compileSequenceItems, compileSequenceItem, hlookA, compileExpandLoop,
        (ih t).2, except_error_bind]
    · simp only [compileSequenceItems, compileSequenceItem, hlookB, compileExpandLoop,
        (ih t).1, except_error_bind]

/-- C3: the program `pattern a: use b / pattern b: use a / seq: use a` makes
the compiler expand forever — for **every** expansion-depth budget the
embedded compiler runs out of budget instead of producing a result or the
claimed cycle diagnostic.  (The source has no expansion stack: a cyclic
`use` recurses unboundedly.) -/
theorem c3_cyclic_program_diverges :
    ∀ fuel : ℕ, compile fuel cyclicAst = .error .fuelExhausted := by
  intro fuel
  rw [compile]
  simp only [show cyclicAst.sequence = some [.patternUse "a" 1] from rfl,
    show cyclicAst.instrument = leadInst from rfl]
  have hseq : compileSequenceItems fuel [.patternUse "a" 1] 0 leadInst none
      (contextOf cyclicAst) = .error .fuelExhausted :=
    (cyclic_use_exhausts_fuel fuel 0).1
  rw [hseq]
  rfl

/-! ## Claim C5 — pattern and repeat expansion are referentially transparent -/

theorem compileSequenceItems_singleton (fuel : ℕ) (x : SequenceItem) (t : ℚ)
    (inst : InstDirective) (tr : Option String) (ctx : CompilerContext) :
    compileSequenceItems fuel [x] t inst tr ctx =
      compileSequenceItem fuel x t inst tr ctx := by
  rw [compileSequenceItems]
  cases h : compileSequenceItem fuel x t inst tr ctx with
  | error e => rw [except_error_bind]
  | ok r =>
    obtain ⟨es, t'⟩ := r
    rw [except_ok_bind]
    simp only
    rw [compileSequenceItems, except_ok_bind, List.append_nil]

/-- Replacing `use nm` (with `reps` repetitions) by `reps` literal copies of
the referenced pattern's body preserves any successful walk, events and end
cursor alike. -/
theorem use_inline_items (fuel : ℕ) (pre post : List SequenceItem) (nm : String)
    (reps : ℕ) (pat : PatternDefinition) (t : ℚ) (inst : InstDirective)
    (tr : Option String) (ctx : CompilerContext)
    (hpat : mapGet nm ctx.patterns = some pat)
    (r : List SynthEvent × ℚ)
    (h : compileSequenceItems fuel (pre ++ SequenceItem.patternUse nm reps :: post)
          t inst tr ctx = .ok r) :
    compileSequenceItems fuel
        (pre ++ (List.flatten (List.replicate reps pat.items) ++ post)) t inst tr ctx =
      .ok r := by
  rw [show pre ++ SequenceItem.patternUse nm reps :: post =
        pre ++ ([SequenceItem.patternUse nm reps] ++ post) from rfl,
      compileSequenceItems_append] at h
  rw [compileSequenceItems_append]
  cases h₁ : compileSequenceItems fuel pre t inst tr ctx with
  | error e => rw [h₁, except_error_bind] at h; exact absurd h (by simp)
  | ok r₁ =>
    obtain ⟨es₁, t₁⟩ := r₁
    rw [h₁, except_ok_bind] at h
    rw [except_ok_bind]
    simp only at h ⊢
    rw [compileSequenceItems_append, compileSequenceItems_singleton] at h
    rw [compileSequenceItems_append]
    cases hm : compileSequenceItem fuel (SequenceItem.patternUse nm reps) t₁ inst tr ctx with
    | error e => rw [hm, except_error_bind] at h; exact Except.noConfusion h
    | ok rm =>
      obtain ⟨esm, tm⟩ := rm
      rw [hm, except_ok_bind] at h
      match fuel, hm with
      | 0, hm =>
        rw [compileSequenceItem, hpat] at hm
        exact absurd hm (by simp)
      | f + 1, hm =>
        rw [compileSequenceItem, hpat] at hm
        simp only at hm
        rw [compileExpandLoop_eq_join] at hm
        have hflat : compileSequenceItems (f + 1)
            (List.flatten (List.replicate reps pat.items)) t₁ inst tr ctx =
              .ok (esm, tm) :=
          compileSequenceItems_fuel_succ f _ t₁ inst tr ctx (esm, tm) hm
        rw [hflat, except_ok_bind]
        simp only at h ⊢
        exact h

/-- Replacing a repeat block `xN { body }` by `N` literal copies of `body`
is a strict equality of walks (both outcomes and events agree, even on
failures). -/
theorem repeat_inline_items (fuel : ℕ) (pre post : List SequenceItem)
    (count : ℕ) (body : List SequenceItem) (t : ℚ) (inst : InstDirective)
    (tr : Option String) (ctx : CompilerContext) :
    compileSequenceItems fuel (pre ++ SequenceItem.repeatBlock count body :: post)
        t inst tr ctx =
      compileSequenceItems fuel
        (pre ++ (List.flatten (List.replicate count body) ++ post)) t inst tr ctx := by
  rw [show pre ++ SequenceItem.repeatBlock count body :: post =
        pre ++ ([SequenceItem.repeatBlock count body] ++ post) from rfl,
      compileSequenceItems_append, compileSequenceItems_append]
  cases h₁ : compileSequenceItems fuel pre t inst tr ctx with
  | error e => rfl
  | ok r₁ =>
    obtain ⟨es₁, t₁⟩ := r₁
    rw [except_ok_bind, except_ok_bind]
    simp only
    rw [compileSequenceItems_append, compileSequenceItems_append,
        compileSequenceItems_singleton, compileSequenceItem,
        compileExpandLoop_eq_join]

/-- `compile` on a program whose sequence is `some L`, decomposed into the
walk of `L` and the walk of the tracks. -/
theorem compile_update_sequence (fuel : ℕ) (base : Program) (L : List SequenceItem) :
    compile fuel { base with sequence := some L } = (do
      let (es, _) ← compileSequenceItems fuel L 0 base.instrument none (contextOf base)
      let trackEvents ← compileTracksLoop fuel base.tracks (contextOf base)
      Except.ok (sortByT (es ++ trackEvents))) := by
  have hctx : contextOf { base with sequence := some L } = contextOf base := rfl
  rw [compile]
  simp only [hctx]
  cases h₁ : compileSequenceItems fuel L 0 base.instrument none (contextOf base) with
  | error e => rw [except_error_bind, except_error_bind]
  | ok r₁ =>
    obtain ⟨es₁, t₁⟩ := r₁
    rw [except_ok_bind, except_ok_bind]
    simp only
    rw [except_ok_bind]

/-- C5: expansion is referentially transparent.  Replacing `use nm` with
`reps` repetitions by `reps` literal copies of the referenced pattern's
body preserves a successful compilation and its exact event list; replacing
a repeat block `xN { body }` by `N` literal copies of `body` yields the
very same compilation outcome.  (The cursor flows across the copies in both
cases.) -/
theorem c5_expansion_referentially_transparent
    (fuel : ℕ) (base : Program) (pre post : List SequenceItem)
    (nm : String) (reps : ℕ) (pat : PatternDefinition)
    (count : ℕ) (body : List SequenceItem) :
    (∀ es : List SynthEvent,
      mapGet nm (buildIndex (·.name) base.patterns) = some pat →
      compile fuel { base with sequence := some (pre ++ SequenceItem.patternUse nm reps :: post) } = .ok es →
      compile fuel { base with sequence := some (pre ++ (List.flatten (List.replicate reps pat.items) ++ post)) } = .ok es) ∧
    (compile fuel { base with sequence := some (pre ++ SequenceItem.repeatBlock count body :: post) } =
      compile fuel { base with sequence := some (pre ++ (List.flatten (List.replicate count body) ++ post)) }) := by
  constructor
  · intro es hpat hA
    rw [compile_update_sequence] at hA
    rw [compile_update_sequence]
    cases h₁ : compileSequenceItems fuel (pre ++ SequenceItem.patternUse nm reps :: post)
        0 base.instrument none (contextOf base) with
    | error e => rw [h₁, except_error_bind] at hA; exact Except.noConfusion hA
    | ok r₁ =>
      obtain ⟨es₁, t₁⟩ := r₁
      have h₁' := use_inline_items fuel pre post nm reps pat 0 base.instrument none
        (contextOf base) hpat (es₁, t₁) h₁
      rw [h₁', except_ok_bind]
      rw [h₁, except_ok_bind] at hA
      exact hA
  · rw [compile_update_sequence, compile_update_sequence, repeat_inline_items]

/-- Witness for C5: `pattern p: C4 1/4` with `seq: use p x2` compiles to the
same two events as the literal `seq: C4 1/4, C4 1/4`, and `seq: x2 { C4 1/4 }`
equals the literal form as well. -/
theorem c5_expansion_referentially_transparent_witness :
    compile 1 { inlineBase with sequence := some ([] ++ (List.flatten (List.replicate 2 [SequenceItem.note pC4 q4 none]) ++ [])) } =
      .ok c5WitnessEvents ∧
    compile 1 { inlineBase with sequence := some ([] ++ SequenceItem.repeatBlock 2 [SequenceItem.note pC4 q4 none] :: []) } =
      compile 1 { inlineBase with sequence := some ([] ++ (List.flatten (List.replicate 2 [SequenceItem.note pC4 q4 none]) ++ [])) } := by
  have hA : compile 1 { inlineBase with sequence := some ([] ++ SequenceItem.patternUse "p" 2 :: []) } = .ok c5WitnessEvents := by
    simp [compile, contextOf, inlineBase, c5WitnessEvents, compileSequenceItems,
      compileSequenceItem, compileExpandLoop, compileNote, parseDurationToSeconds,
      parseDuration, durationToSeconds, parsePitch, pitchToMidi, midiToFrequency,
      noteSemitones, buildIndex, mapSet, mapGet, leadInst, pC4, q4, attachTrack,
      DEFAULT_VELOCITY, compileTracksLoop, sortByT, insertByT,
      except_ok_bind, except_error_bind]
    norm_num [except_ok_bind]
  refine ⟨?_, ?_⟩
  · exact (c5_expansion_referentially_transparent 1 inlineBase [] [] "p" 2
      ⟨"p", [SequenceItem.note pC4 q4 none]⟩ 2 [SequenceItem.note pC4 q4 none]).1
      c5WitnessEvents rfl hA
  · exact (c5_expansion_referentially_transparent 1 inlineBase [] [] "p" 2
      ⟨"p", [SequenceItem.note pC4 q4 none]⟩ 2 [SequenceItem.note pC4 q4 none]).2

/-! ## Claim C7 — event invariants of the full pipeline -/

/-- C7: every event of a successful end-to-end compilation (including the
swing transform when `swing > 0`) is well-formed — `0 ≤ t`, `0 ≤ dur`,
notes carry MIDI and frequency, rests carry neither and have velocity 0 —
and the event list is sorted non-decreasingly by `t`. -/
theorem c7_pipeline_invariants (fuel : ℕ) (ast : Program) (res : CompilationResult)
    (h : compileFromAst fuel ast = .ok res) :
    (∀ e ∈ res.events, eventWellFormed e) ∧
    res.events.Pairwise (fun a b => a.t ≤ b.t) := by
  rw [compileFromAst] at h
  cases hc : compile fuel ast with
  | error e => rw [hc, except_error_bind] at h; exact Except.noConfusion h
  | ok es =>
    rw [hc, except_ok_bind] at h
    simp only at h
    obtain ⟨hwf, hsorted⟩ := compile_wf fuel ast es hc
    obtain rfl := (Except.ok.injEq _ _).mp h
    simp only
    by_cases hsw : ast.globalSettings.swing > 0
    · rw [if_pos hsw]
      exact ⟨applySwing_wf es _ _ _ hwf, applySwing_sorted es _ _ _ hsorted⟩
    · rw [if_neg hsw]
      exact ⟨hwf, hsorted⟩

/-- Witness for C7 on `swingAst` (swing 0.5, grid 16, two sixteenth notes). -/
theorem c7_pipeline_invariants_witness :
    (∀ e ∈ swingWitnessResult.events, eventWellFormed e) ∧
    swingWitnessResult.events.Pairwise (fun a b => a.t ≤ b.t) := by
  have hres : compileFromAst 1 swingAst = .ok swingWitnessResult := by
    have hcompile : compile 1 swingAst = .ok
        [ { t := 0, dur := 1/8, kind := .note, midi := some 60, freq := some 60
            vel := 8/10, inst := "lead", waveform := "sine", track := none
            gain := none, adsr := none },
          { t := 1/8, dur := 1/8, kind := .note, midi := some 62, freq := some 62
            vel := 8/10, inst := "lead", waveform := "sine", track := none
            gain := none, adsr := none } ] := by
      simp [compile, contextOf, swingAst, compileSequenceItems, compileSequenceItem,
        compileNote, parseDurationToSeconds, parseDuration, durationToSeconds,
        parsePitch, pitchToMidi, midiToFrequency, noteSemitones, buildIndex,
        leadInst, pC4, pD4, attachTrack, DEFAULT_VELOCITY, compileTracksLoop,
        sortByT, insertByT, except_ok_bind, except_error_bind]
      norm_num [except_ok_bind]
    rw [compileFromAst, hcompile, except_ok_bind]
    simp only [show swingAst.globalSettings = ⟨1/2, 1, 16⟩ from rfl,
      show swingAst.bpm = 120 from rfl]
    rw [if_pos (by norm_num)]
    rw [show (((16 : ℤ) : ℚ)) = (16 : ℚ) from by norm_num,
      show (((120 : ℤ) : ℚ)) = (120 : ℚ) from by norm_num]
    rw [applySwing, if_neg (by norm_num)]
    have h1 : swingMapEvent (1/2) ((60/(120:ℚ)) * (4/16))
        { t := 0, dur := 1/8, kind := .note, midi := some 60, freq := some 60
          vel := 8/10, inst := "lead", waveform := "sine", track := none
          gain := none, adsr := none } =
        { t := 0, dur := 1/8, kind := .note, midi := some 60, freq := some 60
          vel := 8/10, inst := "lead", waveform := "sine", track := none
          gain := none, adsr := none } := by
      rw [swingMapEvent]
      simp only
      rw [if_neg]
      rintro ⟨-, h2⟩
      rw [show round ((0:ℚ) / ((60/(120:ℚ)) * (4/16))) = 0 by norm_num [round_eq]] at h2
      exact absurd h2 (by decide)
    have h2 : swingMapEvent (1/2) ((60/(120:ℚ)) * (4/16))
        { t := 1/8, dur := 1/8, kind := .note, midi := some 62, freq := some 62
          vel := 8/10, inst := "lead", waveform := "sine", track := none
          gain := none, adsr := none } =
        { t := 3/16, dur := 1/8, kind := .note, midi := some 62, freq := some 62
          vel := 8/10, inst := "lead", waveform := "sine", track := none
          gain := none, adsr := none } := by
      rw [swingMapEvent]
      simp only
      rw [if_pos]
      · congr 1
        norm_num
      · constructor
        · rw [show round ((1/8:ℚ) / ((60/(120:ℚ)) * (4/16))) = 1 by norm_num [round_eq]]
          norm_num
        · rw [show round ((1/8:ℚ) / ((60/(120:ℚ)) * (4/16))) = 1 by norm_num [round_eq]]
          decide
    simp only [List.map_cons, List.map_nil, h1, h2]
    rw [swingWitnessResult]
    simp [sortByT, insertByT, calculateTotalDuration]
    norm_num
  exact c7_pipeline_invariants 1 swingAst swingWitnessResult hres

/-! ## Claim C9 — duplicate names resolve last-wins -/

/-- `compile` on any program whose sequence is `some L`, decomposed. -/
theorem compile_sequence_eq (fuel : ℕ) (ast : Program) (L : List SequenceItem)
    (hseq : ast.sequence = some L) :
    compile fuel ast = (do
      let (es, _) ← compileSequenceItems fuel L 0 ast.instrument none (contextOf ast)
      let trackEvents ← compileTracksLoop fuel ast.tracks (contextOf ast)
      Except.ok (sortByT (es ++ trackEvents))) := by
  rw [compile, hseq]
  simp only
  cases h₁ : compileSequenceItems fuel L 0 ast.instrument none (contextOf ast) with
  | error e => rw [except_error_bind, except_error_bind]
  | ok r₁ =>
    obtain ⟨es₁, t₁⟩ := r₁
    rw [except_ok_bind, except_ok_bind]
    simp only
    rw [except_ok_bind]

/-- C9: duplicate pattern and instrument names are not compilation errors;
every name is resolved by the `Map.set`-built indexes to the definition
appearing **last** in source order, while the parser's implicit default
instrument is the **first** instrument directive.  In particular a program
whose sequence is `use nm` compiles successfully against the last pattern
definition named `nm` whenever that pattern's body compiles. -/
theorem c9_duplicate_names_last_wins :
    (∀ (pats : List PatternDefinition) (n : String),
      mapGet n (buildIndex (·.name) pats) = lastDefined (·.name) pats n) ∧
    (∀ (insts : List InstDirective) (n : String),
      mapGet n (buildIndex (·.name) insts) = lastDefined (·.name) insts n) ∧
    (∀ (i : InstDirective) (rest : List InstDirective),
      defaultInstrumentOf (i :: rest) = i) ∧
    (∀ (fuel : ℕ) (ast : Program) (nm : String) (reps : ℕ)
       (pat : PatternDefinition) (es : List SynthEvent) (t' : ℚ),
      ast.tracks = [] →
      ast.sequence = some [SequenceItem.patternUse nm reps] →
      lastDefined (·.name) ast.patterns nm = some pat →
      compileExpandLoop fuel reps pat.items 0 ast.instrument none (contextOf ast) =
        .ok (es, t') →
      compile (fuel + 1) ast = .ok (sortByT es)) := by
  refine ⟨fun pats n => buildIndex_get _ pats n,
          fun insts n => buildIndex_get _ insts n,
          fun i rest => rfl, ?_⟩
  intro fuel ast nm reps pat es t' htracks hseq hlast hloop
  rw [compile_sequence_eq (fuel + 1) ast _ hseq]
  have hlook : mapGet nm (contextOf ast).patterns = some pat := by
    rw [show (contextOf ast).patterns = buildIndex (·.name) ast.patterns from rfl,
      buildIndex_get]
    exact hlast
  have hwalk : compileSequenceItems (fuel + 1) [SequenceItem.patternUse nm reps] 0
      ast.instrument none (contextOf ast) = .ok (es, t') := by
    rw [compileSequenceItems_singleton, compileSequenceItem, hlook]
    simp only
    exact hloop
  rw [hwalk, except_ok_bind]
  simp only
  rw [htracks, compileTracksLoop, except_ok_bind, List.append_nil]

/-- Witness for C9: two patterns named `p` (`C4 1/4` then `D4 1/4`); the
sequence `use p` compiles successfully to the **second** definition's D4
event. -/
theorem c9_duplicate_names_last_wins_witness :
    compile 1 dupAst = .ok (sortByT [dupWitnessEvent]) := by
  have hloop : compileExpandLoop 0 1 [SequenceItem.note pD4 q4 none] 0
      dupAst.instrument none (contextOf dupAst) = .ok ([dupWitnessEvent], 1/2) := by
    simp [compileExpandLoop, compileSequenceItems, compileSequenceItem, compileNote,
      parseDurationToSeconds, parseDuration, durationToSeconds, parsePitch,
      pitchToMidi, midiToFrequency, noteSemitones, contextOf, dupAst, buildIndex,
      mapSet, mapGet, leadInst, pD4, q4, attachTrack, DEFAULT_VELOCITY,
      dupWitnessEvent, except_ok_bind, except_error_bind]
    norm_num [except_ok_bind]
  exact c9_duplicate_names_last_wins.2.2.2 0 dupAst "p" 1
    ⟨"p", [SequenceItem.note pD4 q4 none]⟩ [dupWitnessEvent] (1/2) rfl rfl rfl hloop

/-! ## Claim C4 — at-most-once dispatch per loop iteration -/

theorem loopSecondPass_not_main (cfg : SchedConfig) (now nls : ℚ) (iter : ℤ) :
    ∀ (pending : List SynthEvent) (idx : ℕ) (d : Dispatch),
      d ∈ loopSecondPass cfg now nls iter pending idx → d.mainPass = false := by
  intro pending
  induction pending with
  | nil => intro idx d hd; exact absurd hd (by simp [loopSecondPass])
  | cons e rest ih =>
    intro idx d hd
    rw [loopSecondPass] at hd
    split_ifs at hd with h1 h2 h3
    · exact ih (idx + 1) d hd
    · rcases List.mem_cons.mp hd with rfl | hd
      · rfl
      · exact ih (idx + 1) d hd
    · exact ih (idx + 1) d hd
    · exact ih (idx + 1) d hd

theorem loopMainPass_set_mono (cfg : SchedConfig) (now lst : ℚ) (iter : ℤ) :
    ∀ (pending : List SynthEvent) (idx : ℕ) (scheduled : List ℕ) (j : ℕ),
      j ∈ scheduled → j ∈ (loopMainPass cfg now lst iter pending idx scheduled).2.1 := by
  intro pending
  induction pending with
  | nil => intro idx scheduled j hj; exact hj
  | cons e rest ih =>
    intro idx scheduled j hj
    rw [loopMainPass]
    split_ifs with h1 h2 h3 h4 h5 h6
    · exact ih (idx + 1) scheduled j hj
    · exact hj
    · exact ih (idx + 1) scheduled j hj
    · exact ih (idx + 1) scheduled j hj
    · exact ih (idx + 1) (idx :: scheduled) j (List.mem_cons_of_mem idx hj)
    · exact ih (idx + 1) scheduled j hj
    · exact ih (idx + 1) scheduled j hj

theorem loopMainPass_dispatch_spec (cfg : SchedConfig) (now lst : ℚ) (iter : ℤ) :
    ∀ (pending : List SynthEvent) (idx : ℕ) (scheduled : List ℕ) (d : Dispatch),
      d ∈ (loopMainPass cfg now lst iter pending idx scheduled).1 →
        d.mainPass = true ∧ d.iter = iter ∧ idx ≤ d.idx ∧ d.idx ∉ scheduled ∧
          d.idx ∈ (loopMainPass cfg now lst iter pending idx scheduled).2.1 := by
  intro pending
  induction pending with
  | nil => intro idx scheduled d hd; exact absurd hd (by simp [loopMainPass])
  | cons e rest ih =>
    intro idx scheduled d hd
    rw [loopMainPass] at hd ⊢
    split_ifs at hd ⊢ with h1 h2 h3 h4 h5 h6
    · obtain ⟨hm, hi, hle, hns, hmem⟩ := ih (idx + 1) scheduled d hd
      exact ⟨hm, hi, le_trans (Nat.le_succ idx) hle, hns, hmem⟩
    · exact absurd hd (by simp)
    · obtain ⟨hm, hi, hle, hns, hmem⟩ := ih (idx + 1) scheduled d hd
      exact ⟨hm, hi, le_trans (Nat.le_succ idx) hle, hns, hmem⟩
    · obtain ⟨hm, hi, hle, hns, hmem⟩ := ih (idx + 1) scheduled d hd
      exact ⟨hm, hi, le_trans (Nat.le_succ idx) hle, hns, hmem⟩
    · simp only [List.mem_cons] at hd
      rcases hd with rfl | hd
      · refine ⟨rfl, rfl, le_rfl, h4, ?_⟩
        exact loopMainPass_set_mono cfg now lst iter rest (idx + 1) (idx :: scheduled)
          idx (List.mem_cons_self idx scheduled)
      · obtain ⟨hm, hi, hle, hns, hmem⟩ := ih (idx + 1) (idx :: scheduled) d hd
        refine ⟨hm, hi, le_trans (Nat.le_succ idx) hle, ?_, hmem⟩
        exact fun hc => hns (List.mem_cons_of_mem idx hc)
    · obtain ⟨hm, hi, hle, hns, hmem⟩ := ih (idx + 1) scheduled d hd
      exact ⟨hm, hi, le_trans (Nat.le_succ idx) hle, hns, hmem⟩
    · obtain ⟨hm, hi, hle, hns, hmem⟩ := ih (idx + 1) scheduled d hd
      exact ⟨hm, hi, le_trans (Nat.le_succ idx) hle, hns, hmem⟩

theorem loopMainPass_idx_nodup (cfg : SchedConfig) (now lst : ℚ) (iter : ℤ) :
    ∀ (pending : List SynthEvent) (idx : ℕ) (scheduled : List ℕ),
      ((loopMainPass cfg now lst iter pending idx scheduled).1.map (·.idx)).Nodup := by
  intro pending
  induction pending with
  | nil => intro idx scheduled; simp [loopMainPass]
  | cons e rest ih =>
    intro idx scheduled
    rw [loopMainPass]
    split_ifs with h1 h2 h3 h4 h5 h6
    · exact ih (idx + 1) scheduled
    · simp
    · exact ih (idx + 1) scheduled
    · exact ih (idx + 1) scheduled
    · simp only [List.map_cons]
      refine List.Nodup.cons ?_ (ih (idx + 1) (idx :: scheduled))
      intro hc
      obtain ⟨d, hd, hidx⟩ := List.mem_map.mp hc
      obtain ⟨-, -, hle, -, -⟩ :=
        loopMainPass_dispatch_spec cfg now lst iter rest (idx + 1) (idx :: scheduled) d hd
      omega
    · exact ih (idx + 1) scheduled
    · exact ih (idx + 1) scheduled

/-- Core of the per-tick invariant argument, stated over the branch results
of `scheduleWithLooping` (iteration `iterN`, starting index `nidx`, starting
set `schedN`, second-pass dispatches `ds₂`). -/
theorem tick_inv_core (cfg : SchedConfig) (now lst : ℚ) (iterN : ℤ)
    (pending : List SynthEvent) (nidx : ℕ) (schedN : List ℕ)
    (ds ds₂ : List Dispatch)
    (hds₂ : ∀ d ∈ ds₂, d.mainPass = false)
    (hold : ∀ d ∈ ds, d.mainPass = true →
      d.iter ≤ iterN ∧ (d.iter = iterN → d.idx ∈ schedN))
    (hnodup : ((ds.filter (·.mainPass)).map (fun d => (d.idx, d.iter))).Nodup) :
    runInv ⟨(loopMainPass cfg now lst iterN pending nidx schedN).2.2, iterN,
            (loopMainPass cfg now lst iterN pending nidx schedN).2.1⟩
      (ds ++ ((loopMainPass cfg now lst iterN pending nidx schedN).1 ++ ds₂)) := by
  constructor
  · intro d hd hmain
    rcases List.mem_append.mp hd with hd | hd
    · obtain ⟨hle, hin⟩ := hold d hd hmain
      exact ⟨hle, fun he =>
        loopMainPass_set_mono cfg now lst iterN pending nidx schedN d.idx (hin he)⟩
    · rcases List.mem_append.mp hd with hd | hd
      · obtain ⟨-, hi, -, -, hmem⟩ :=
          loopMainPass_dispatch_spec cfg now lst iterN pending nidx schedN d hd
        exact ⟨le_of_eq hi, fun _ => hmem⟩
      · rw [hds₂ d hd] at hmain
        exact absurd hmain (by simp)
  · have hfilter₂ : ds₂.filter (·.mainPass) = [] := by
      rw [List.filter_eq_nil_iff]
      intro d hd
      simp [hds₂ d hd]
    have hfilter₁ : (loopMainPass cfg now lst iterN pending nidx schedN).1.filter
        (·.mainPass) = (loopMainPass cfg now lst iterN pending nidx schedN).1 := by
      rw [List.filter_eq_self]
      intro d hd
      simp [(loopMainPass_dispatch_spec cfg now lst iterN pending nidx schedN d hd).1]
    rw [List.filter_append, List.filter_append, hfilter₁, hfilter₂, List.append_nil,
      List.map_append, List.nodup_append]
    refine ⟨hnodup, ?_, ?_⟩
    · have hidx := loopMainPass_idx_nodup cfg now lst iterN pending nidx schedN
      have hcomp : (((loopMainPass cfg now lst iterN pending nidx schedN).1.map
          (fun d => (d.idx, d.iter))).map Prod.fst) =
          (loopMainPass cfg now lst iterN pending nidx schedN).1.map (·.idx) := by
        rw [List.map_map]
        rfl
      exact List.Nodup.of_map Prod.fst (hcomp ▸ hidx)
    · intro p hpA hpB
      obtain ⟨dA, hdA, rfl⟩ := List.mem_map.mp hpA
      obtain ⟨dB, hdB, hEq⟩ := List.mem_map.mp hpB
      have hmA : dA.mainPass = true := by simpa using List.of_mem_filter hdA
      obtain ⟨-, hin⟩ := hold dA (List.mem_of_mem_filter hdA) hmA
      obtain ⟨-, hiB, -, hnotin, -⟩ :=
        loopMainPass_dispatch_spec cfg now lst iterN pending nidx schedN dB hdB
      have hidxeq : dA.idx = dB.idx := congrArg Prod.fst hEq.symm
      have hwitereq : dA.iter = dB.iter := congrArg Prod.snd hEq.symm
      exact hnotin (hidxeq ▸ hin (hwitereq.trans hiB))

/-- One tick of `scheduleWithLooping` preserves the at-most-once invariant. -/
theorem scheduleWithLooping_preserves_inv (cfg : SchedConfig) (st : SchedState)
    (ds : List Dispatch) (now : ℚ) (hinv : runInv st ds) :
    runInv (scheduleWithLooping cfg st now).1
      (ds ++ (scheduleWithLooping cfg st now).2) := by
  obtain ⟨hold, hnodup⟩ := hinv
  have hds₂ : ∀ (lstEnd : ℚ) (it : ℤ) (d : Dispatch),
      d ∈ (if jsMod (now - cfg.startTime) cfg.loopDurationSec + SCHEDULE_AHEAD_SEC ≥
            cfg.loopDurationSec then
          loopSecondPass cfg now lstEnd it cfg.events 0 else []) →
      d.mainPass = false := by
    intro lstEnd it d hd
    split at hd
    · exact loopSecondPass_not_main cfg now lstEnd it cfg.events 0 d hd
    · exact absurd hd (by simp)
  by_cases hadv :
      (⌊(now - cfg.startTime) / cfg.loopDurationSec⌋ : ℤ) > st.currentLoopIteration
  · rw [scheduleWithLooping]
    simp only [if_pos hadv]
    refine tick_inv_core cfg now _ _ _ _ _ ds _ (hds₂ _ _) ?_ hnodup
    intro d hd hmain
    obtain ⟨hle, -⟩ := hold d hd hmain
    constructor
    · exact le_of_lt (lt_of_le_of_lt hle hadv)
    · intro he
      exact absurd he (by omega)
  · rw [scheduleWithLooping]
    simp only [if_neg hadv]
    exact tick_inv_core cfg now _ _ _ _ _ ds _ (hds₂ _ _) hold hnodup

/-- The invariant holds along any run of the looping scheduler. -/
theorem runLooping_inv (cfg : SchedConfig) :
    ∀ (ticks : List ℚ) (st : SchedState) (ds : List Dispatch), runInv st ds →
      runInv (runLooping cfg st ticks).1 (ds ++ (runLooping cfg st ticks).2) := by
  intro ticks
  induction ticks with
  | nil => intro st ds hinv; simpa [runLooping] using hinv
  | cons now rest ih =>
    intro st ds hinv
    rw [runLooping]
    simp only
    have hstep := scheduleWithLooping_preserves_inv cfg st ds now hinv
    have := ih (scheduleWithLooping cfg st now).1
      (ds ++ (scheduleWithLooping cfg st now).2) hstep
    simpa [List.append_assoc] using this

/-- C4 (amended): across any sequence of ticks at arbitrary clock times,
the **guarded main pass** of the looping scheduler dispatches each
(event-index, loop-iteration) pair at most once — the `(idx, iter)` pairs
of its dispatches are pairwise distinct.  (The unguarded next-loop
lookahead pass can duplicate, see the counterexample.) -/
theorem c4_main_pass_at_most_once (cfg : SchedConfig) (ticks : List ℚ) :
    ((((runLooping cfg initialSchedState ticks).2).filter (·.mainPass)).map
      (fun d => (d.idx, d.iter))).Nodup := by
  have h := runLooping_inv cfg ticks initialSchedState []
    ⟨by intro d hd; exact absurd hd (by simp), by simp⟩
  simpa using h.2

/-- Counterexample for C4 as stated: with one event at `t = 0`,
`loopDurationSec = 2` and ticks at clock times 1.81 and 1.90 (both while
`currentLoopIteration = 0`, both within `SCHEDULE_AHEAD_SEC = 0.2` of the
loop boundary), the unguarded next-loop lookahead pass dispatches event
index 0 **twice** for loop iteration 1, both times at `when = 2.0` — the
same (event-index, loop-iteration) instance. -/
theorem c4_double_dispatch_counterexample :
    (runLooping loopCfg initialSchedState [181/100, 19/10]).2 =
      [⟨0, 2, 1, false⟩, ⟨0, 2, 1, false⟩] ∧
    ¬ ((runLooping loopCfg initialSchedState [181/100, 19/10]).2.count
        (⟨0, 2, 1, false⟩ : Dispatch) ≤ 1) := by
  have hrun : (runLooping loopCfg initialSchedState [181/100, 19/10]).2 =
      [⟨0, 2, 1, false⟩, ⟨0, 2, 1, false⟩] := by
    norm_num [runLooping, scheduleWithLooping, loopMainPass, loopSecondPass, jsMod,
      ratTrunc, loopCfg, loopNoteEvent, initialSchedState, SCHEDULE_AHEAD_SEC,
      shouldPlayEvent]
  refine ⟨hrun, ?_⟩
  rw [hrun]
  decide
